import Mathlib

/-!
Verification of the design-pattern examples of the repository: the Roman
numeral interpreter, the vending machine (State), the text alignment
strategies (Strategy), the car pool (Object Pool) and the logger (Singleton).
All definitions come first, one namespace per source file, then the lemmas and
the theorems.

Roman numeral interpreter (`src/behavioral/interpreter.cpp`)

A shallow embedding of the Interpreter-pattern example: the four recognizer
classes `Thousand`, `Hundred`, `Ten`, `One`, the per-magnitude matcher
`Interpreter::interpret(string&, int&)` and the client entry point
`Interpreter::interpret(const string&)`.

Modelling decisions.
* `std::string` is a `List Char`.
* `int` is a 32-bit two's complement integer: an `Int` on which every addition
  and subtraction of the source is followed by `CppInt.wrap`, the reduction
  modulo `2^32` into `INT_MIN .. INT_MAX`.  (C++ leaves signed overflow
  undefined; wrapping is what the usual platforms do.)  Every run of the
  client entry point starts the total at `0` and the four matchers add at most
  `3000 + 900 + 90 + 9`, so no overflow is reachable from it
  (`interpret_total_le` below).
* `std::string::compare(pos, len, str)` and `std::string::substr(pos)` throw
  `std::out_of_range` when `pos > size()`.  The throw is modelled by
  `Except.error`, carrying the values that the two reference parameters
  `input` and `total` hold at the moment of the throw.
-/

/-! ## The type `int` -/

namespace CppInt

/-- The constant `INT_MAX` of a 32-bit `int`. -/
def INT_MAX : Int := 2147483647

/-- The constant `INT_MIN` of a 32-bit `int`. -/
def INT_MIN : Int := -2147483648

/-- The `int` that holds the arithmetic result `x`: `x` itself when it lies in
`INT_MIN .. INT_MAX`, otherwise `x` wrapped around modulo `2^32`. -/
def wrap (x : Int) : Int :=
  (x + 2147483648) % 4294967296 - 2147483648

end CppInt

namespace RomanInterpreter

/-! ## Strings -/

namespace CppString

/-- Three-way lexicographic comparison of two character sequences, as done by
`std::string::compare`: negative, zero or positive.  Only the sign is
specified by the C++ standard; the callers here only test for zero. -/
def compareChars : List Char → List Char → Int
  | [], [] => 0
  | [], _ :: _ => -1
  | _ :: _, [] => 1
  | a :: as, b :: bs =>
    if a < b then -1 else if b < a then 1 else compareChars as bs

/-- The call `input.compare(pos, len, str)`: compares the substring of `input`
starting at `pos` of length `min(len, size - pos)` with `str`.  Returns `none`
for the `std::out_of_range` throw (`pos > size`). -/
def compare (input : List Char) (pos len : Nat) (str : List Char) : Option Int :=
  if pos > input.length then none
  else some (compareChars ((input.drop pos).take len) str)

/-- The call `input.substr(pos)`: the suffix from `pos`; `none` for the
`std::out_of_range` throw (`pos > size`). -/
def substr (input : List Char) (pos : Nat) : Option (List Char) :=
  if pos > input.length then none else some (input.drop pos)

end CppString

/-! ## The recognizer classes -/

/-- The dynamic class of a recognizer object: one of the four subclasses of
`Interpreter` that override the fragment getters. -/
inductive Interpreter where
  | Thousand
  | Hundred
  | Ten
  | One
  deriving DecidableEq, Repr

/-- The virtual `one()`. -/
def Interpreter.one : Interpreter → List Char
  | .Thousand => ['M']
  | .Hundred => ['C']
  | .Ten => ['X']
  | .One => ['I']

/-- The virtual `four()`. -/
def Interpreter.four : Interpreter → List Char
  | .Thousand => []
  | .Hundred => ['C', 'D']
  | .Ten => ['X', 'L']
  | .One => ['I', 'V']

/-- The virtual `five()`. -/
def Interpreter.five : Interpreter → List Char
  | .Thousand => []
  | .Hundred => ['D']
  | .Ten => ['L']
  | .One => ['V']

/-- The virtual `nine()`. -/
def Interpreter.nine : Interpreter → List Char
  | .Thousand => []
  | .Hundred => ['C', 'M']
  | .Ten => ['X', 'C']
  | .One => ['I', 'X']

/-- The virtual `multiplier()`. -/
def Interpreter.multiplier : Interpreter → Int
  | .Thousand => 1000
  | .Hundred => 100
  | .Ten => 10
  | .One => 1

/-! ## The matcher and the client entry point -/

/-- The two reference parameters `string& input, int& total` of the matcher. -/
structure State where
  input : List Char
  total : Int
  deriving DecidableEq, Repr

/-- The loop `for (int end = index + 3; index < end; index++)` of the matcher.
The first argument is `end - index`, the number of iterations still allowed.
Returns the final `index` and `total`; the error is the `std::out_of_range`
throw of `compare`. -/
def Interpreter.loop (self : Interpreter) (input : List Char) :
    Nat → Nat → Int → Except State (Nat × Int)
  | 0, index, total => .ok (index, total)
  | k + 1, index, total =>
    match CppString.compare input index 1 self.one with
    | none => .error ⟨input, total⟩
    | some c =>
      if c = 0 then
        Interpreter.loop self input k (index + 1) (CppInt.wrap (total + 1 * self.multiplier))
      else .ok (index, total)

/-- The last statement `input = input.substr(index)` of the matcher. -/
def removeLeading (input : List Char) (total : Int) (index : Nat) : Except State State :=
  match CppString.substr input index with
  | none => .error ⟨input, total⟩
  | some rest => .ok ⟨rest, total⟩

/-- The matcher `void Interpreter::interpret(string& input, int& total)`,
run on the object `self`. -/
def Interpreter.interpret (self : Interpreter) (st : State) : Except State State :=
  match CppString.compare st.input 0 2 self.nine with
  | none => .error st
  | some c9 =>
    if c9 = 0 then
      removeLeading st.input (CppInt.wrap (st.total + 9 * self.multiplier)) (0 + 2)
    else
      match CppString.compare st.input 0 2 self.four with
      | none => .error st
      | some c4 =>
        if c4 = 0 then
          removeLeading st.input (CppInt.wrap (st.total + 4 * self.multiplier)) (0 + 2)
        else
          match CppString.compare st.input 0 1 self.five with
          | none => .error st
          | some c5 =>
            let total :=
              if c5 = 0 then CppInt.wrap (st.total + 5 * self.multiplier) else st.total
            let index := if c5 = 0 then 1 else 0
            match Interpreter.loop self st.input 3 index total with
            | .error e => .error e
            | .ok (index, total) => removeLeading st.input total index

/-- The four matcher invocations of the client entry point, in the order of
the source: `thousands`, `hundreds`, `tens`, `ones`. -/
def runMatchers (st : State) : Except State State :=
  match Interpreter.Thousand.interpret st with
  | .error e => .error e
  | .ok s1 =>
    match Interpreter.Hundred.interpret s1 with
    | .error e => .error e
    | .ok s2 =>
      match Interpreter.Ten.interpret s2 with
      | .error e => .error e
      | .ok s3 => Interpreter.One.interpret s3

/-- The client entry point `int Interpreter::interpret(const string&)`. -/
def interpret (roman_number : List Char) : Except State Int :=
  let input := roman_number
  let total : Int := 0
  if !input.isEmpty then
    match runMatchers ⟨input, total⟩ with
    | .error e => .error e
    | .ok st => if !st.input.isEmpty then .ok 0 else .ok st.total
  else .ok total

/-! ## The reference notions used by the statements -/

/-- The maximal digit a recognizer can contribute: the thousands place has no
four, five and nine forms and the loop matches at most three `M`. -/
def Interpreter.maxDigit : Interpreter → Nat
  | .Thousand => 3
  | _ => 9

/-- A fragment repeated `n` times. -/
def repeatFragment (frag : List Char) : Nat → List Char
  | 0 => []
  | n + 1 => frag ++ repeatFragment frag n

/-- The digit `d` of one magnitude written with the one/four/five/nine forms:
`9` is the nine form, `4` the four form, `5..8` the five form followed by
`d - 5` one forms, and `0..3` are `d` one forms. -/
def Interpreter.digitString (self : Interpreter) (d : Nat) : List Char :=
  if d = 9 then self.nine
  else if d = 4 then self.four
  else if 5 ≤ d then self.five ++ repeatFragment self.one (d - 5)
  else repeatFragment self.one d

/-- The canonical Roman numeral of `n`: the thousands digit as repeated `M`,
then the hundreds, tens and ones digits. -/
def canonicalNumeral (n : Nat) : List Char :=
  Interpreter.Thousand.digitString (n / 1000)
    ++ Interpreter.Hundred.digitString (n / 100 % 10)
    ++ Interpreter.Ten.digitString (n / 10 % 10)
    ++ Interpreter.One.digitString (n % 10)

/-- The four fragments of a recognizer. -/
def Interpreter.fragments (self : Interpreter) : List (List Char) :=
  [self.one, self.four, self.five, self.nine]

/-- The characters that occur in the fragments of a recognizer. -/
def Interpreter.symbols (self : Interpreter) : List Char :=
  self.one ++ self.four ++ self.five ++ self.nine

/-- Whether `l` contains four consecutive copies of `c`. -/
def hasRun4 (c : Char) : List Char → Bool
  | [] => false
  | a :: l => (List.replicate 4 c).isPrefixOf (a :: l) || hasRun4 c l

/-! ## The reference converter of the specification -/

namespace Reference

/-- The recognizer descriptor of the specification: the four fragments and
the multiplier, as plain data. -/
structure Descriptor where
  one : List Char
  four : List Char
  five : List Char
  nine : List Char
  multiplier : Int

/-- The fixed ordered list of the four descriptors: thousands, hundreds, tens,
ones. -/
def descriptors : List Descriptor :=
  [⟨['M'], [], [], [], 1000⟩,
   ⟨['C'], ['C', 'D'], ['D'], ['C', 'M'], 100⟩,
   ⟨['X'], ['X', 'L'], ['L'], ['X', 'C'], 10⟩,
   ⟨['I'], ['I', 'V'], ['V'], ['I', 'X'], 1⟩]

/-- The cursor's prefix of the length of the fragment equals the fragment,
and the fragment is non-empty. -/
def startsWith (cursor frag : List Char) : Bool :=
  !frag.isEmpty && cursor.take frag.length == frag

/-- Step 4 of the generic matcher: match the one fragment greedily, at most
`k` times, adding `1 * multiplier` and advancing the cursor per match. -/
def matchOnes (d : Descriptor) : Nat → State → State
  | 0, st => st
  | k + 1, st =>
    if startsWith st.input d.one then
      matchOnes d k ⟨st.input.drop d.one.length, st.total + 1 * d.multiplier⟩
    else st

/-- The generic matcher, steps 1 to 4 of the specification. -/
def matcher (d : Descriptor) (st : State) : State :=
  if startsWith st.input d.nine then
    ⟨st.input.drop d.nine.length, st.total + 9 * d.multiplier⟩
  else if startsWith st.input d.four then
    ⟨st.input.drop d.four.length, st.total + 4 * d.multiplier⟩
  else
    matchOnes d 3
      (if startsWith st.input d.five then
        ⟨st.input.drop d.five.length, st.total + 5 * d.multiplier⟩
      else st)

/-- The reference converter: the empty-input short-circuit, the generic
matcher folded over the descriptor list, and the final leftover check. -/
def convert (input : List Char) : Int :=
  if input.isEmpty then 0
  else
    let st := descriptors.foldl (fun st d => matcher d st) ⟨input, 0⟩
    if !st.input.isEmpty then 0 else st.total

/-- The descriptor that holds the data of a recognizer class. -/
def ofClass (self : Interpreter) : Descriptor :=
  ⟨self.one, self.four, self.five, self.nine, self.multiplier⟩

end Reference

/-! ## A closed form of the matcher

Auxiliary functions that describe what the matcher and the client compute;
they are related to the embedded code by `Interpreter.interpret_closed_form`,
`runMatchers_eq` and `interpret_eq` below. -/

/-- The number of leading copies of the one-character fragment `frag` in `l`,
counted up to `k`. -/
def leadCount (frag : List Char) : Nat → List Char → Nat
  | 0, _ => 0
  | k + 1, l => if l.take 1 = frag then 1 + leadCount frag k (l.drop 1) else 0

/-- Whether the five form is taken by the matcher: `1` when the cursor starts
with it, else `0`. -/
def fiveCount (self : Interpreter) (s : List Char) : Nat :=
  if s.take 1 = self.five then 1 else 0

/-- The number of one forms the loop of the matcher takes. -/
def oneCount (self : Interpreter) (s : List Char) : Nat :=
  leadCount self.one 3 (s.drop (fiveCount self s))

/-- The digit recognized by the matcher at the head of the cursor `s`. -/
def recognizedDigit (self : Interpreter) (s : List Char) : Nat :=
  if s.take 2 = self.nine then 9
  else if s.take 2 = self.four then 4
  else 5 * fiveCount self s + oneCount self s

/-- The number of characters the matcher removes from the cursor `s`. -/
def consumed (self : Interpreter) (s : List Char) : Nat :=
  if s.take 2 = self.nine then 2
  else if s.take 2 = self.four then 2
  else fiveCount self s + oneCount self s

/-- The total after the matcher has added the value of the digit `d` of a
magnitude with multiplier `m` to the total `t`, in `int` arithmetic. -/
def addWrapped (t : Int) (d : Nat) (m : Int) : Int :=
  if d = 0 then t else CppInt.wrap (t + d * m)

/-- The cursor the matcher leaves. -/
def cursorAfter (self : Interpreter) (s : List Char) : List Char :=
  s.drop (consumed self s)

/-- The cursor after the four matcher invocations. -/
def finalCursor (s : List Char) : List Char :=
  cursorAfter .One (cursorAfter .Ten (cursorAfter .Hundred (cursorAfter .Thousand s)))

/-- The total after the four matcher invocations started with total `0`. -/
def finalTotal (s : List Char) : Nat :=
  recognizedDigit .Thousand s * 1000
    + recognizedDigit .Hundred (cursorAfter .Thousand s) * 100
    + recognizedDigit .Ten (cursorAfter .Hundred (cursorAfter .Thousand s)) * 10
    + recognizedDigit .One
        (cursorAfter .Ten (cursorAfter .Hundred (cursorAfter .Thousand s)))

end RomanInterpreter

/-! ## Vending machine (`src/behavioral/state.cpp`)

`int` values are 32-bit: the results of `cur_stock_units - asked_units` and
`stock_units() + given_units` are reduced by `CppInt.wrap`.  A call ends in one
of three ways: it returns, it throws a `std::runtime_error`, or it runs into
undefined behaviour.  The last two are an `Except.error` that carries the kind
of failure and the machine as the failure leaves it (the machine is a
reference parameter).

`int VendingMachine::set_stock_units(int)` is declared to return an `int` but
its body is the single assignment `stock_units_ = given_stock_units;`: control
reaches the closing brace of a value-returning function, which is undefined
behaviour in C++.  The model performs the assignment and then reports
`Failure.undefined_behaviour`.
-/

namespace Vending

/-- The dynamic class of the object behind `InventoryState* state_`. -/
inductive InventoryState where
  | InStock
  | OutOfStock
  deriving DecidableEq, Repr

/-- The context class `VendingMachine`. -/
structure VendingMachine where
  state_ : InventoryState
  stock_units_ : Int
  deriving DecidableEq, Repr

/-- The ways a call can fail: a thrown `std::runtime_error` with its `what()`
text, or undefined behaviour. -/
inductive Failure where
  | runtime_error (what : String)
  | undefined_behaviour
  deriving DecidableEq, Repr

/-- The constructor `VendingMachine(int given_stock_units)`. -/
def new_VendingMachine (given_stock_units : Int) : VendingMachine :=
  ⟨.InStock, given_stock_units⟩

/-- The getter `stock_units()`. -/
def VendingMachine.stock_units (machine : VendingMachine) : Int :=
  machine.stock_units_

/-- The method `int set_stock_units(int)`: it assigns the member and then
reaches the end of its body without a `return` statement. -/
def VendingMachine.set_stock_units (machine : VendingMachine) (given_stock_units : Int) :
    Except (Failure × VendingMachine) VendingMachine :=
  .error (.undefined_behaviour, { machine with stock_units_ := given_stock_units })

/-- The setter `set_state(InventoryState*)`. -/
def VendingMachine.set_state (machine : VendingMachine) (state : InventoryState) :
    VendingMachine :=
  { machine with state_ := state }

/-- The virtual `sell`: `InStock::sell` and `OutOfStock::sell`. -/
def InventoryState.sell : InventoryState → VendingMachine → Int →
    Except (Failure × VendingMachine) VendingMachine
  | .InStock, machine, asked_units =>
    let cur_stock_units := machine.stock_units
    if cur_stock_units < asked_units then
      .error (.runtime_error "Insufficient inventory", machine)
    else
      match machine.set_stock_units (CppInt.wrap (cur_stock_units - asked_units)) with
      | .error e => .error e
      | .ok machine =>
        if machine.stock_units = 0 then
          .ok (machine.set_state .OutOfStock)
        else .ok machine
  | .OutOfStock, machine, _ => .error (.runtime_error "Sold out", machine)

/-- The virtual `restock`: `InStock::restock` and `OutOfStock::restock`. -/
def InventoryState.restock : InventoryState → VendingMachine → Int →
    Except (Failure × VendingMachine) VendingMachine
  | .InStock, machine, given_units =>
    machine.set_stock_units (CppInt.wrap (machine.stock_units + given_units))
  | .OutOfStock, machine, given_units =>
    match machine.set_stock_units given_units with
    | .error e => .error e
    | .ok machine => .ok (machine.set_state .InStock)

/-- The method `VendingMachine::sell(int asked_units)`. -/
def VendingMachine.sell (machine : VendingMachine) (asked_units : Int) :
    Except (Failure × VendingMachine) VendingMachine :=
  machine.state_.sell machine asked_units

/-- The method `VendingMachine::restock(int given_units)`. -/
def VendingMachine.restock (machine : VendingMachine) (given_units : Int) :
    Except (Failure × VendingMachine) VendingMachine :=
  machine.state_.restock machine given_units

end Vending

/-! ## Text alignment strategies (`src/behavioral/strategy.cpp`)

A `std::string` is a `List Char`; the position `npos` returned by a failed
search is `none`.  The widths are non-negative: `int width_` and
`int line_width_` are represented by a `Nat` (a negative width would be
converted to a huge `size_t` by the comparison `result.length() < width()` and
is outside this model).  `std::string::erase` throws `std::out_of_range` when
its index exceeds the size; the throw is `none`.
-/

namespace Strategy

/-- The call `s.find_first_not_of(c)`: the index of the first character other
than `c`, `none` for `npos`. -/
def find_first_not_of : List Char → Char → Option Nat
  | [], _ => none
  | x :: xs, c => if x ≠ c then some 0 else (find_first_not_of xs c).map (· + 1)

/-- The call `s.find_last_not_of(c)`: the index of the last character other
than `c`, `none` for `npos`. -/
def find_last_not_of (s : List Char) (c : Char) : Option Nat :=
  (find_first_not_of s.reverse c).map (fun i => s.length - 1 - i)

/-- The call `s.erase(index, count)`: removes `min(count, size - index)`
characters from `index` on; the count `npos` is `none`.  Throws
`std::out_of_range` (`none`) when `index > size`. -/
def erase (s : List Char) (index : Nat) (count : Option Nat) : Option (List Char) :=
  if index > s.length then none
  else
    match count with
    | some n => some (s.take index ++ s.drop (index + n))
    | none => some (s.take index)

/-- The value of `pos + 1` for a search result `pos` of type `size_t`:
`npos + 1` wraps around to `0`. -/
def succ_pos : Option Nat → Nat
  | some i => i + 1
  | none => 0

/-- The function `trim(string&)`: the value it leaves in its argument and
returns. -/
def trim (given_string : List Char) : Option (List Char) :=
  match erase given_string 0 (find_first_not_of given_string ' ') with
  | none => none
  | some given_string =>
    erase given_string (succ_pos (find_last_not_of given_string ' ')) none

/-- The strategy classes derived from `TextAlignment`, each built with its
width. -/
inductive TextAlignment where
  | LeftAlign (width_ : Nat)
  | RightAlign (width_ : Nat)
  | CenterAlign (width_ : Nat)
  deriving DecidableEq, Repr

/-- The getter `width()`. -/
def TextAlignment.width : TextAlignment → Nat
  | .LeftAlign width_ => width_
  | .RightAlign width_ => width_
  | .CenterAlign width_ => width_

/-- The virtual `apply_to(const string &text)` of the three strategies. -/
def TextAlignment.apply_to (self : TextAlignment) (text : List Char) : Option (List Char) :=
  match trim text with
  | none => none
  | some result =>
    match self with
    | .LeftAlign _ =>
      if result.length < self.width ∧ ¬ result.isEmpty then
        let pad := self.width - result.length
        some (result ++ List.replicate pad ' ')
      else some result
    | .RightAlign _ =>
      if result.length < self.width ∧ ¬ result.isEmpty then
        let pad := self.width - result.length
        some (List.replicate pad ' ' ++ result)
      else some result
    | .CenterAlign _ =>
      if result.length < self.width ∧ ¬ result.isEmpty then
        let pad := (self.width - result.length) / 2
        some ((List.replicate pad ' ' ++ result) ++ List.replicate pad ' ')
      else some result

/-- The user class `WordDocument`; `text_alignment_` is `none` for `NULL`. -/
structure WordDocument where
  line_width_ : Nat
  document_text_ : List Char
  text_alignment_ : Option TextAlignment
  deriving DecidableEq, Repr

/-- The constructor `WordDocument(const int &line_width)`. -/
def new_WordDocument (line_width : Nat) : WordDocument :=
  { text_alignment_ := none, line_width_ := line_width, document_text_ := [] }

/-- The method `write(const string&)`. -/
def WordDocument.write (doc : WordDocument) (given_text : List Char) : WordDocument :=
  { doc with document_text_ := given_text }

/-- The method `read()`. -/
def WordDocument.read (doc : WordDocument) : List Char :=
  doc.document_text_

/-- The method `do_align(int align_type)` with `ALIGN_LEFT = 0`,
`ALIGN_RIGHT = 1`, `ALIGN_CENTER = 2`; `none` when `apply_to` throws. -/
def WordDocument.do_align (doc : WordDocument) (align_type : Int) : Option WordDocument :=
  let text_alignment_ : TextAlignment :=
    if align_type = 0 then .LeftAlign doc.line_width_
    else if align_type = 1 then .RightAlign doc.line_width_
    else if align_type = 2 then .CenterAlign doc.line_width_
    else .LeftAlign doc.line_width_
  match text_alignment_.apply_to doc.document_text_ with
  | none => none
  | some text =>
    some { doc with text_alignment_ := some text_alignment_, document_text_ := text }

/-- The text without its leading and trailing spaces. -/
def strip (s : List Char) : List Char :=
  (s.dropWhile (· == ' ')).rdropWhile (· == ' ')

/-- The padding a strategy puts around a text that has no leading or trailing
space. -/
def TextAlignment.padded (self : TextAlignment) (result : List Char) : List Char :=
  if result.length < self.width ∧ ¬ result.isEmpty then
    match self with
    | .LeftAlign _ => result ++ List.replicate (self.width - result.length) ' '
    | .RightAlign _ => List.replicate (self.width - result.length) ' ' ++ result
    | .CenterAlign _ =>
      (List.replicate ((self.width - result.length) / 2) ' ' ++ result)
        ++ List.replicate ((self.width - result.length) / 2) ' '
  else result

end Strategy

/-! ## Car pool (`src/creational/object_pool.cpp`)

`Car` objects live on the heap and are handled through `Car*` pointers.  The
heap is the list of the cars allocated by `new Car` so far, a non-null pointer
is the index of its car in that list, and `NULL` is `none`.  No car is ever
deleted.  A method call through a pointer that addresses no car is undefined
behaviour in C++ and is modelled as having no effect.
-/

namespace ObjectPool

/-- The class `Car`. -/
structure Car where
  in_use_ : Bool
  rentee_ : String
  last_rentee_ : String
  deriving DecidableEq, Repr

/-- The constructor `Car()`. -/
def default_Car : Car :=
  { in_use_ := false, last_rentee_ := "NONE", rentee_ := "NONE" }

/-- The setter `set_in_use(bool status)`; its body is `in_use_ = true;`. -/
def Car.set_in_use (car : Car) (_status : Bool) : Car :=
  { car with in_use_ := true }

/-- The getter `in_use()`. -/
def Car.in_use (car : Car) : Bool :=
  car.in_use_

/-- The setter `set_rentee(const string&)`. -/
def Car.set_rentee (car : Car) (given_rentee : String) : Car :=
  { car with rentee_ := given_rentee }

/-- The getter `rentee()`. -/
def Car.rentee (car : Car) : String :=
  car.rentee_

/-- The setter `set_last_rentee(const string&)`. -/
def Car.set_last_rentee (car : Car) (given_rentee : String) : Car :=
  { car with last_rentee_ := given_rentee }

/-- The getter `last_rentee()`. -/
def Car.last_rentee (car : Car) : String :=
  car.last_rentee_

/-- The heap of cars together with the member `car_list` of the `CarPool`
object in use. -/
structure World where
  heap : List Car
  car_list : List Nat
  deriving DecidableEq, Repr

/-- A method call `car->f(...)` that mutates the car addressed by `car`. -/
def World.call (w : World) (car : Nat) (f : Car → Car) : World :=
  match w.heap[car]? with
  | some c => { w with heap := w.heap.set car (f c) }
  | none => w

/-- The expression `new Car`: the new pointer and the extended heap. -/
def World.new_Car (w : World) : Nat × World :=
  (w.heap.length, { w with heap := w.heap ++ [default_Car] })

/-- The method `Car* CarPool::get_car()`: the returned pointer and the world
after the call. -/
def get_car (w : World) : Nat × World :=
  match w.car_list with
  | [] =>
    let (car, w) := w.new_Car
    (car, w.call car (fun c => c.set_in_use true))
  | front :: rest =>
    let car := front
    let w := { w with car_list := rest }
    (car, w.call car (fun c => c.set_in_use true))

/-- The method `Car* CarPool::return_car(Car *given_car)`: the world after the
call.  For a non-null car the returned pointer is `NULL`; for `NULL` the
function body does nothing and ends without a `return`. -/
def return_car (w : World) (given_car : Option Nat) : World :=
  match given_car with
  | some car =>
    let w := w.call car (fun c => c.set_in_use false)
    let w := w.call car (fun c => c.set_last_rentee c.rentee)
    let w := w.call car (fun c => c.set_rentee "NONE")
    { w with car_list := w.car_list ++ [car] }
  | none => w

/-- The calls a client makes: `get_car()`, `return_car(car)` and
`car->set_rentee(name)`. -/
inductive PoolOp where
  | get_car
  | return_car (car : Nat)
  | set_rentee (car : Nat) (name : String)
  deriving DecidableEq, Repr

/-- One client call: the world after it and the pointer handed out, if the call
is `get_car()`. -/
def poolStep (w : World) : PoolOp → World × List Nat
  | .get_car => ((get_car w).2, [(get_car w).1])
  | .return_car car => (return_car w (some car), [])
  | .set_rentee car name => (w.call car (fun c => c.set_rentee name), [])

/-- A sequence of client calls: the final world and the pointers handed out by
the `get_car()` calls, in order. -/
def poolRun : World → List PoolOp → World × List Nat
  | w, [] => (w, [])
  | w, op :: ops =>
    ((poolRun (poolStep w op).1 ops).1, (poolStep w op).2 ++ (poolRun (poolStep w op).1 ops).2)

/-- The pointers passed to `return_car` by a sequence of client calls, in
order. -/
def returned : List PoolOp → List Nat
  | [] => []
  | .return_car car :: ops => car :: returned ops
  | _ :: ops => returned ops

/-- The pointers that the `get_car()` calls of a sequence take out of the pool
(as opposed to creating a new car), in order. -/
def reissued : World → List PoolOp → List Nat
  | _, [] => []
  | w, op :: ops =>
    (match op, w.car_list with
      | .get_car, front :: _ => [front]
      | _, _ => []) ++ reissued (poolStep w op).1 ops

/-- The client call does not pass the pointer `car` to `return_car` or
`set_rentee`. -/
def PoolOp.leaves (car : Nat) : PoolOp → Prop
  | .get_car => True
  | .return_car p => p ≠ car
  | .set_rentee p _ => p ≠ car

end ObjectPool

/-! ## Logger singleton (`src/creational/singleton.cpp`)

The program state is the static pointer `Logger::log_instance` and the heap of
the `Logger` objects allocated by `new Logger`; a non-null pointer is the index
of its object in the heap and `NULL` is `none`.  A `std::string` is a
`List Char`.
-/

namespace Singleton

/-- The class `Logger`. -/
structure Logger where
  log_data_ : List Char
  deriving DecidableEq, Repr

/-- The constructor `Logger()`: the log data is the empty string. -/
def new_Logger : Logger :=
  { log_data_ := [] }

/-- The static member `log_instance` and the heap of loggers. -/
structure Program where
  log_instance : Option Nat
  heap : List Logger
  deriving DecidableEq, Repr

/-- The state at program start: `Logger* Logger::log_instance = NULL`. -/
def Program.start : Program :=
  { log_instance := none, heap := [] }

/-- The static function `Logger::get_instance()`: the returned pointer and the
state after the call. -/
def get_instance (s : Program) : Nat × Program :=
  match s.log_instance with
  | none =>
    let log := s.heap.length
    (log, { log_instance := some log, heap := s.heap ++ [new_Logger] })
  | some log => (log, s)

/-- The call `log->write_to_log(given_string)`: `log_data_ += given_string`. -/
def write_to_log (s : Program) (log : Nat) (given_string : List Char) : Program :=
  match s.heap[log]? with
  | some l => { s with heap := s.heap.set log { log_data_ := l.log_data_ ++ given_string } }
  | none => s

/-- The call `log->read_from_log()`; `none` when `log` addresses no logger. -/
def read_from_log (s : Program) (log : Nat) : Option (List Char) :=
  (s.heap[log]?).map (fun l => l.log_data_)

/-- The calls of a client: `get_instance()`, which yields a new handle, and
`write_to_log(given_string)` through the handle number `handle` (in the order
in which the handles were obtained). -/
inductive LogOp where
  | get_instance
  | write_to_log (handle : Nat) (given_string : List Char)
  deriving DecidableEq, Repr

/-- One client call on the program state and the handles obtained so far. -/
def logStep (s : Program) (handles : List Nat) : LogOp → Program × List Nat
  | .get_instance => ((get_instance s).2, handles ++ [(get_instance s).1])
  | .write_to_log handle given_string =>
    match handles[handle]? with
    | some log => (write_to_log s log given_string, handles)
    | none => (s, handles)

/-- A sequence of client calls. -/
def logRun : Program → List Nat → List LogOp → Program × List Nat
  | s, handles, [] => (s, handles)
  | s, handles, op :: ops => logRun (logStep s handles op).1 (logStep s handles op).2 ops

/-- Every write of the sequence goes through a handle obtained before it;
`n` is the number of handles obtained before the sequence. -/
def wellFormed : Nat → List LogOp → Prop
  | _, [] => True
  | n, .get_instance :: ops => wellFormed (n + 1) ops
  | n, .write_to_log handle _ :: ops => handle < n ∧ wellFormed n ops

/-- The strings written by the sequence, in write order. -/
def written : List LogOp → List (List Char)
  | [] => []
  | .get_instance :: ops => written ops
  | .write_to_log _ given_string :: ops => given_string :: written ops

/-- The state of a run: before the first `get_instance()` nothing is logged and
no handle exists; afterwards every handle is the one logger, which holds the
text `acc`. -/
def Consistent (s : Program) (handles : List Nat) (acc : List Char) : Prop :=
  (s.log_instance = none ∧ handles = [] ∧ acc = [])
    ∨ ∃ log, s.log_instance = some log ∧ (∀ h ∈ handles, h = log)
        ∧ read_from_log s log = some acc

end Singleton

namespace RomanInterpreter

/-! ## The string primitives -/

theorem CppString.compareChars_eq_zero (a b : List Char) :
    CppString.compareChars a b = 0 ↔ a = b := by
  induction a generalizing b with
  | nil => cases b <;> simp [CppString.compareChars]
  | cons x xs ih =>
    cases b with
    | nil => simp [CppString.compareChars]
    | cons y ys =>
      simp only [CppString.compareChars]
      by_cases h1 : x < y
      · have : x ≠ y := ne_of_lt h1
        simp [h1, this]
      · by_cases h2 : y < x
        · have : x ≠ y := (ne_of_lt h2).symm
          simp [h1, h2, this]
        · have : x = y := le_antisymm (not_lt.mp h2) (not_lt.mp h1)
          simp [h1, h2, this, ih]

theorem CppString.compare_of_le {input : List Char} {pos : Nat} (len : Nat)
    (str : List Char) (h : pos ≤ input.length) :
    CppString.compare input pos len str
      = some (CppString.compareChars ((input.drop pos).take len) str) := by
  simp [CppString.compare, Nat.not_lt.mpr h]

theorem CppString.substr_of_le {input : List Char} {pos : Nat} (h : pos ≤ input.length) :
    CppString.substr input pos = some (input.drop pos) := by
  simp [CppString.substr, Nat.not_lt.mpr h]

/-! ## A closed form of the matcher -/

theorem leadCount_le (frag : List Char) (k : Nat) (l : List Char) :
    leadCount frag k l ≤ k := by
  induction k generalizing l with
  | zero => simp [leadCount]
  | succ k ih =>
    simp only [leadCount]
    split
    · have := ih (l.drop 1); omega
    · omega

theorem leadCount_le_length (self : Interpreter) (k : Nat) (l : List Char) :
    leadCount self.one k l ≤ l.length := by
  induction k generalizing l with
  | zero => simp [leadCount]
  | succ k ih =>
    simp only [leadCount]
    split
    · rename_i h
      have := ih (l.drop 1)
      cases l with
      | nil => cases self <;> simp [Interpreter.one] at h
      | cons a l => simp at this ⊢; omega
    · omega

theorem CppInt.wrap_wrap_add (a b : Int) :
    CppInt.wrap (CppInt.wrap a + b) = CppInt.wrap (a + b) := by
  unfold CppInt.wrap
  omega

theorem CppInt.wrap_of_range (x : Int) (h0 : CppInt.INT_MIN ≤ x) (h1 : x ≤ CppInt.INT_MAX) :
    CppInt.wrap x = x := by
  unfold CppInt.wrap
  unfold CppInt.INT_MIN at h0
  unfold CppInt.INT_MAX at h1
  omega

theorem addWrapped_wrap (t m : Int) (a j : Nat) (ha : 0 < a) :
    addWrapped (CppInt.wrap (t + a * m)) j m = addWrapped t (a + j) m := by
  unfold addWrapped
  have hne : ¬ (a + j = 0) := by omega
  rw [if_neg hne]
  by_cases hj : j = 0
  · subst hj
    simp
  · rw [if_neg hj, CppInt.wrap_wrap_add]
    congr 1
    push_cast
    ring

theorem Interpreter.loop_eq (self : Interpreter) (s : List Char) (k index : Nat) (t : Int)
    (h : index ≤ s.length) :
    self.loop s k index t
      = .ok (index + leadCount self.one k (s.drop index),
             addWrapped t (leadCount self.one k (s.drop index)) self.multiplier) := by
  induction k generalizing index t with
  | zero => simp [Interpreter.loop, leadCount, addWrapped]
  | succ k ih =>
    simp only [Interpreter.loop, CppString.compare_of_le 1 self.one h,
      CppString.compareChars_eq_zero, leadCount]
    by_cases hm : (s.drop index).take 1 = self.one
    · have hlt : index + 1 ≤ s.length := by
        by_contra hc
        have : s.drop index = [] := List.drop_eq_nil_of_le (by omega)
        rw [this] at hm
        cases self <;> simp [Interpreter.one] at hm
      simp only [hm, if_true]
      rw [ih (index + 1) _ hlt]
      simp only [List.drop_drop]
      have e := addWrapped_wrap t self.multiplier 1
        (leadCount self.one k (s.drop (index + 1))) (by omega)
      rw [Nat.cast_one] at e
      rw [e]
      congr 2
      omega
    · simp [hm, addWrapped]

theorem take_two_length {s frag : List Char} (h : s.take 2 = frag)
    (hf : frag.length = 2) : 2 ≤ s.length := by
  have := congrArg List.length h
  simp only [List.length_take, hf] at this
  omega

theorem fiveCount_le_one (self : Interpreter) (s : List Char) : fiveCount self s ≤ 1 := by
  unfold fiveCount; split <;> omega

theorem fiveCount_nil (self : Interpreter) (h : self ≠ .Thousand) : fiveCount self [] = 0 := by
  cases self <;> simp [fiveCount, Interpreter.five] at h ⊢

theorem fiveCount_add_oneCount_le (self : Interpreter) (s : List Char)
    (hg : self = .Thousand → s ≠ []) :
    fiveCount self s + oneCount self s ≤ s.length := by
  unfold oneCount
  have h1 := leadCount_le_length self 3 (s.drop (fiveCount self s))
  have h2 := fiveCount_le_one self s
  cases s with
  | nil =>
    have h3 : fiveCount self [] = 0 := fiveCount_nil self (fun h => hg h rfl)
    simp only [h3, List.drop_nil, List.length_nil] at h1 ⊢
    omega
  | cons a s =>
    simp only [List.length_drop, List.length_cons] at h1 ⊢
    omega

theorem take_two_ne_nine (self : Interpreter) (s : List Char)
    (hg : self = .Thousand → s ≠ []) (h : s.take 2 = self.nine) :
    self.nine.length = 2 := by
  cases self
  · exfalso
    apply hg rfl
    cases s <;> simp [Interpreter.nine] at h ⊢
  all_goals rfl

theorem take_two_ne_four (self : Interpreter) (s : List Char)
    (hg : self = .Thousand → s ≠ []) (h : s.take 2 = self.four) :
    self.four.length = 2 := by
  cases self
  · exfalso
    apply hg rfl
    cases s <;> simp [Interpreter.four] at h ⊢
  all_goals rfl

/-- The matcher returns normally on every cursor the client can hand to it,
and its effect is given by `consumed`, `recognizedDigit` and `addWrapped`. -/
theorem Interpreter.interpret_closed_form (self : Interpreter) (s : List Char) (t : Int)
    (hg : self = .Thousand → s ≠ []) :
    self.interpret ⟨s, t⟩
      = .ok ⟨s.drop (consumed self s),
          addWrapped t (recognizedDigit self s) self.multiplier⟩ := by
  simp only [Interpreter.interpret, CppString.compare_of_le _ _ (Nat.zero_le s.length),
    CppString.compareChars_eq_zero, List.drop_zero, consumed, recognizedDigit]
  by_cases h9 : s.take 2 = self.nine
  · have hl := take_two_length h9 (take_two_ne_nine self s hg h9)
    simp [h9, removeLeading, CppString.substr_of_le hl, addWrapped]
  · by_cases h4 : s.take 2 = self.four
    · have hl := take_two_length h4 (take_two_ne_four self s hg h4)
      simp only [h9, if_false]
      simp [h4, removeLeading, CppString.substr_of_le hl, addWrapped]
    · have hle := fiveCount_add_oneCount_le self s hg
      have h5 : fiveCount self s ≤ s.length := by omega
      simp only [h9, h4, if_false]
      have hidx : (if s.take 1 = self.five then 1 else 0) = fiveCount self s := rfl
      rw [hidx, Interpreter.loop_eq self s 3 _ _ h5]
      simp only [removeLeading]
      rw [show leadCount self.one 3 (s.drop (fiveCount self s)) = oneCount self s from rfl,
        CppString.substr_of_le hle]
      simp only [Except.ok.injEq, State.mk.injEq, true_and]
      unfold fiveCount
      split
      · have e := addWrapped_wrap t self.multiplier 5 (oneCount self s) (by omega)
        rw [show ((5 : Nat) : Int) = 5 from rfl] at e
        simpa using e
      · simp

/-! ## The recognized digit and its digit string -/

theorem leadCount_split (frag : List Char) (k : Nat) (l : List Char) :
    repeatFragment frag (leadCount frag k l) ++ l.drop (leadCount frag k l) = l := by
  induction k generalizing l with
  | zero => simp [leadCount, repeatFragment]
  | succ k ih =>
    simp only [leadCount]
    split
    · rename_i h
      have e : l.drop (1 + leadCount frag k (l.drop 1))
          = (l.drop 1).drop (leadCount frag k (l.drop 1)) := by
        rw [List.drop_drop]
      rw [e, Nat.add_comm, repeatFragment, List.append_assoc, ih (l.drop 1)]
      rw [← h, List.take_append_drop]
    · simp [repeatFragment]

theorem Interpreter.digitString_five_one (self : Interpreter) (i j : Nat)
    (hi : i ≤ 1) (hj : j ≤ 3) :
    self.digitString (5 * i + j) = repeatFragment self.five i ++ repeatFragment self.one j := by
  interval_cases i <;> interval_cases j <;> simp [Interpreter.digitString, repeatFragment]

theorem oneCount_le (self : Interpreter) (s : List Char) : oneCount self s ≤ 3 :=
  leadCount_le _ _ _

theorem fiveCount_split (self : Interpreter) (s : List Char) :
    repeatFragment self.five (fiveCount self s) ++ s.drop (fiveCount self s) = s := by
  unfold fiveCount
  split
  · rename_i h
    simp only [repeatFragment, List.append_nil]
    rw [← h, List.take_append_drop]
  · simp [repeatFragment]

/-- The cursor is the digit string of the recognized digit followed by what
the matcher leaves. -/
theorem digitString_append_drop (self : Interpreter) (s : List Char) :
    self.digitString (recognizedDigit self s) ++ s.drop (consumed self s) = s := by
  unfold recognizedDigit consumed
  by_cases h9 : s.take 2 = self.nine
  · simp only [h9, if_true, Interpreter.digitString]
    rw [← h9, List.take_append_drop]
  · by_cases h4 : s.take 2 = self.four
    · simp only [h9, if_false]
      simp only [h4, if_true, Interpreter.digitString]
      rw [if_neg (show ¬ (4 = 9) by omega), ← h4, List.take_append_drop]
    · simp only [h9, h4, if_false]
      rw [Interpreter.digitString_five_one self _ _ (fiveCount_le_one self s) (oneCount_le self s),
        List.append_assoc, ← List.drop_drop]
      unfold oneCount
      rw [leadCount_split, fiveCount_split]

theorem recognizedDigit_le (self : Interpreter) (s : List Char)
    (hg : self = .Thousand → s ≠ []) :
    recognizedDigit self s ≤ self.maxDigit := by
  unfold recognizedDigit
  have h1 := fiveCount_le_one self s
  have h2 := oneCount_le self s
  cases self
  · have hs : s ≠ [] := hg rfl
    have h5 : fiveCount .Thousand s = 0 := by
      cases s <;> simp [fiveCount, Interpreter.five] at hs ⊢
    have hn : ¬ s.take 2 = Interpreter.Thousand.nine := by
      cases s <;> simp [Interpreter.nine] at hs ⊢
    have hf : ¬ s.take 2 = Interpreter.Thousand.four := by
      cases s <;> simp [Interpreter.four] at hs ⊢
    simp only [hn, hf, if_false, h5, Interpreter.maxDigit]
    omega
  all_goals
    simp only [Interpreter.maxDigit]
    split
    · omega
    · split <;> omega

theorem digitString_length (self : Interpreter) (s : List Char)
    (hg : self = .Thousand → s ≠ []) :
    (self.digitString (recognizedDigit self s)).length = consumed self s := by
  have h := congrArg List.length (digitString_append_drop self s)
  have hc : consumed self s ≤ s.length := by
    unfold consumed
    by_cases h9 : s.take 2 = self.nine
    · simp only [h9, if_true]
      exact take_two_length h9 (take_two_ne_nine self s hg h9)
    · by_cases h4 : s.take 2 = self.four
      · simp only [h9, if_false]
        simp only [h4, if_true]
        exact take_two_length h4 (take_two_ne_four self s hg h4)
      · simp only [h9, h4, if_false]
        exact fiveCount_add_oneCount_le self s hg
  simp only [List.length_append, List.length_drop] at h
  omega

/-! ## The matcher on a cursor that starts with a digit string -/

/-- Every valid digit string at the head of the cursor is at most as long as
what the matcher removes. -/
theorem digitString_length_le_consumed (self : Interpreter) (d : Nat)
    (hd : d ≤ self.maxDigit) (r : List Char) :
    (self.digitString d).length ≤ consumed self (self.digitString d ++ r) := by
  cases self <;> simp only [Interpreter.maxDigit] at hd <;> interval_cases d <;>
    simp [Interpreter.digitString, repeatFragment, consumed, fiveCount, oneCount, leadCount,
      Interpreter.one, Interpreter.four, Interpreter.five, Interpreter.nine] <;>
    split_ifs <;> omega

/-- On a cursor made of the digit string of `d` followed by a rest that does
not start with a symbol of the recognizer, the matcher recognizes `d`. -/
theorem recognizedDigit_digitString (self : Interpreter) (d : Nat)
    (hd : d ≤ self.maxDigit) (r : List Char)
    (hr : ∀ c, r.head? = some c → c ∉ self.symbols)
    (hg : self = .Thousand → self.digitString d ++ r ≠ []) :
    recognizedDigit self (self.digitString d ++ r) = d
      ∧ consumed self (self.digitString d ++ r) = (self.digitString d).length := by
  cases r with
  | nil =>
    cases self <;> simp only [Interpreter.maxDigit] at hd <;> interval_cases d <;>
      simp [Interpreter.digitString, repeatFragment, consumed, recognizedDigit, fiveCount,
        oneCount, leadCount, Interpreter.one, Interpreter.four, Interpreter.five,
        Interpreter.nine] at hg ⊢
  | cons c r =>
    have hc := hr c rfl
    cases self <;> simp only [Interpreter.maxDigit] at hd <;> interval_cases d <;>
      simp [Interpreter.symbols, Interpreter.one, Interpreter.four, Interpreter.five,
        Interpreter.nine] at hc <;>
      simp [Interpreter.digitString, repeatFragment, consumed, recognizedDigit, fiveCount,
        oneCount, leadCount, Interpreter.one, Interpreter.four, Interpreter.five,
        Interpreter.nine, hc]

/-! ## The four matcher invocations of the client -/

theorem addWrapped_of_range (self : Interpreter) (t : Int) (d : Nat) (hd : d ≤ 9)
    (h0 : CppInt.INT_MIN ≤ t) (h1 : t + 9 * self.multiplier ≤ CppInt.INT_MAX) :
    addWrapped t d self.multiplier = t + (d : Int) * self.multiplier := by
  unfold addWrapped
  split
  · rename_i h
    subst h
    simp
  · apply CppInt.wrap_of_range
    · unfold CppInt.INT_MIN at h0 ⊢
      cases self <;> simp only [Interpreter.multiplier] at h1 ⊢ <;> omega
    · unfold CppInt.INT_MAX at h1 ⊢
      cases self <;> simp only [Interpreter.multiplier] at h1 ⊢ <;> omega

theorem recognizedDigit_le_nine (self : Interpreter) (s : List Char)
    (hg : self = .Thousand → s ≠ []) : recognizedDigit self s ≤ 9 := by
  have := recognizedDigit_le self s hg
  cases self <;> simp only [Interpreter.maxDigit] at this <;> omega

/-- The matcher on a total from which `9 * multiplier` can be added without
overflow: the value of the recognized digit is added exactly. -/
theorem Interpreter.interpret_in_range (self : Interpreter) (s : List Char) (t : Int)
    (hg : self = .Thousand → s ≠ [])
    (h0 : CppInt.INT_MIN ≤ t) (h1 : t + 9 * self.multiplier ≤ CppInt.INT_MAX) :
    self.interpret ⟨s, t⟩
      = .ok ⟨cursorAfter self s, t + (recognizedDigit self s : Nat) * self.multiplier⟩ := by
  rw [Interpreter.interpret_closed_form self s t hg,
    addWrapped_of_range self t _ (recognizedDigit_le_nine self s hg) h0 h1]
  rfl

theorem Interpreter.interpret_ok (self : Interpreter) (s : List Char) (t : Int)
    (hg : self = .Thousand → s ≠ []) (h0 : 0 ≤ t) (h1 : t ≤ 3999) :
    self.interpret ⟨s, t⟩
      = .ok ⟨cursorAfter self s, t + (recognizedDigit self s : Nat) * self.multiplier⟩ := by
  apply Interpreter.interpret_in_range self s t hg
  · unfold CppInt.INT_MIN
    omega
  · unfold CppInt.INT_MAX
    cases self <;> simp only [Interpreter.multiplier] <;> omega

/-- The four matcher invocations of the client on a non-empty input, with the
cursor and the total after each of them. -/
theorem matchers_ok (s : List Char) (hs : s ≠ []) :
    Interpreter.Thousand.interpret ⟨s, 0⟩
        = .ok ⟨cursorAfter .Thousand s,
            0 + (recognizedDigit .Thousand s : Nat) * Interpreter.Thousand.multiplier⟩
      ∧ Interpreter.Hundred.interpret ⟨cursorAfter .Thousand s,
            0 + (recognizedDigit .Thousand s : Nat) * Interpreter.Thousand.multiplier⟩
          = .ok ⟨cursorAfter .Hundred (cursorAfter .Thousand s),
            0 + (recognizedDigit .Thousand s : Nat) * Interpreter.Thousand.multiplier
              + (recognizedDigit .Hundred (cursorAfter .Thousand s) : Nat)
                * Interpreter.Hundred.multiplier⟩
      ∧ Interpreter.Ten.interpret ⟨cursorAfter .Hundred (cursorAfter .Thousand s),
            0 + (recognizedDigit .Thousand s : Nat) * Interpreter.Thousand.multiplier
              + (recognizedDigit .Hundred (cursorAfter .Thousand s) : Nat)
                * Interpreter.Hundred.multiplier⟩
          = .ok ⟨cursorAfter .Ten (cursorAfter .Hundred (cursorAfter .Thousand s)),
            0 + (recognizedDigit .Thousand s : Nat) * Interpreter.Thousand.multiplier
              + (recognizedDigit .Hundred (cursorAfter .Thousand s) : Nat)
                * Interpreter.Hundred.multiplier
              + (recognizedDigit .Ten (cursorAfter .Hundred (cursorAfter .Thousand s)) : Nat)
                * Interpreter.Ten.multiplier⟩
      ∧ Interpreter.One.interpret
            ⟨cursorAfter .Ten (cursorAfter .Hundred (cursorAfter .Thousand s)),
            0 + (recognizedDigit .Thousand s : Nat) * Interpreter.Thousand.multiplier
              + (recognizedDigit .Hundred (cursorAfter .Thousand s) : Nat)
                * Interpreter.Hundred.multiplier
              + (recognizedDigit .Ten (cursorAfter .Hundred (cursorAfter .Thousand s)) : Nat)
                * Interpreter.Ten.multiplier⟩
          = .ok ⟨cursorAfter .One
              (cursorAfter .Ten (cursorAfter .Hundred (cursorAfter .Thousand s))),
            0 + (recognizedDigit .Thousand s : Nat) * Interpreter.Thousand.multiplier
              + (recognizedDigit .Hundred (cursorAfter .Thousand s) : Nat)
                * Interpreter.Hundred.multiplier
              + (recognizedDigit .Ten (cursorAfter .Hundred (cursorAfter .Thousand s)) : Nat)
                * Interpreter.Ten.multiplier
              + (recognizedDigit .One
                  (cursorAfter .Ten (cursorAfter .Hundred (cursorAfter .Thousand s))) : Nat)
                * Interpreter.One.multiplier⟩ := by
  have b3 := recognizedDigit_le .Thousand s (fun _ => hs)
  have b2 := recognizedDigit_le .Hundred (cursorAfter .Thousand s) (fun h => by cases h)
  have b1 := recognizedDigit_le .Ten (cursorAfter .Hundred (cursorAfter .Thousand s))
    (fun h => by cases h)
  simp only [Interpreter.maxDigit] at b3 b2 b1
  refine ⟨Interpreter.interpret_ok .Thousand s 0 (fun _ => hs) (by omega) (by omega),
    Interpreter.interpret_ok .Hundred _ _ (fun h => by cases h) ?_ ?_,
    Interpreter.interpret_ok .Ten _ _ (fun h => by cases h) ?_ ?_,
    Interpreter.interpret_ok .One _ _ (fun h => by cases h) ?_ ?_⟩ <;>
  simp only [Interpreter.multiplier] <;> omega

theorem cursorAfter_split (self : Interpreter) (s : List Char) :
    self.digitString (recognizedDigit self s) ++ cursorAfter self s = s :=
  digitString_append_drop self s

theorem cursorAfter_suffix (self : Interpreter) (s : List Char) :
    cursorAfter self s <:+ s :=
  List.drop_suffix _ _

theorem runMatchers_eq (s : List Char) (hs : s ≠ []) :
    runMatchers ⟨s, 0⟩ = .ok ⟨finalCursor s, (finalTotal s : Nat)⟩ := by
  obtain ⟨e1, e2, e3, e4⟩ := matchers_ok s hs
  simp only [runMatchers, e1, e2, e3, e4]
  simp only [finalCursor, finalTotal, Interpreter.multiplier, Except.ok.injEq, State.mk.injEq,
    true_and]
  push_cast
  ring

theorem interpret_nil : interpret [] = .ok 0 := rfl

theorem interpret_eq (s : List Char) (hs : s ≠ []) :
    interpret s = .ok (if finalCursor s = [] then (finalTotal s : Int) else 0) := by
  unfold interpret
  have h1 : s.isEmpty = false := by cases s <;> simp at hs ⊢
  simp only [h1, runMatchers_eq s hs, Bool.not_false, if_true]
  by_cases hc : finalCursor s = []
  · simp [hc]
  · have h2 : (finalCursor s).isEmpty = false := by
      cases h : finalCursor s <;> simp [h] at hc ⊢
    simp [hc, h2]

/-- The input is the concatenation of the four recognized digit strings and
the final cursor. -/
theorem input_split (s : List Char) :
    s = Interpreter.Thousand.digitString (recognizedDigit .Thousand s)
      ++ (Interpreter.Hundred.digitString (recognizedDigit .Hundred (cursorAfter .Thousand s))
      ++ (Interpreter.Ten.digitString
            (recognizedDigit .Ten (cursorAfter .Hundred (cursorAfter .Thousand s)))
      ++ (Interpreter.One.digitString (recognizedDigit .One
            (cursorAfter .Ten (cursorAfter .Hundred (cursorAfter .Thousand s))))
      ++ finalCursor s))) := by
  unfold finalCursor
  rw [cursorAfter_split, cursorAfter_split, cursorAfter_split, cursorAfter_split]

theorem canonicalNumeral_digits (d3 d2 d1 d0 : Nat) (h2 : d2 ≤ 9) (h1 : d1 ≤ 9)
    (h0 : d0 ≤ 9) :
    canonicalNumeral (d3 * 1000 + d2 * 100 + d1 * 10 + d0)
      = Interpreter.Thousand.digitString d3 ++ (Interpreter.Hundred.digitString d2
        ++ (Interpreter.Ten.digitString d1 ++ Interpreter.One.digitString d0)) := by
  unfold canonicalNumeral
  rw [show (d3 * 1000 + d2 * 100 + d1 * 10 + d0) / 1000 = d3 by omega,
    show (d3 * 1000 + d2 * 100 + d1 * 10 + d0) / 100 % 10 = d2 by omega,
    show (d3 * 1000 + d2 * 100 + d1 * 10 + d0) / 10 % 10 = d1 by omega,
    show (d3 * 1000 + d2 * 100 + d1 * 10 + d0) % 10 = d0 by omega]
  simp only [List.append_assoc]

theorem finalTotal_le (s : List Char) (hs : s ≠ []) : finalTotal s ≤ 3999 := by
  have h3 := recognizedDigit_le .Thousand s (fun _ => hs)
  have h2 := recognizedDigit_le .Hundred (cursorAfter .Thousand s) (fun h => by cases h)
  have h1 := recognizedDigit_le .Ten (cursorAfter .Hundred (cursorAfter .Thousand s))
    (fun h => by cases h)
  have h0 := recognizedDigit_le .One
    (cursorAfter .Ten (cursorAfter .Hundred (cursorAfter .Thousand s))) (fun h => by cases h)
  simp only [Interpreter.maxDigit] at h3 h2 h1 h0
  unfold finalTotal
  omega

/-- A fully consumed input is the canonical numeral of the total. -/
theorem eq_canonicalNumeral_of_consumed (s : List Char)
    (hc : finalCursor s = []) : s = canonicalNumeral (finalTotal s) := by
  have h2 := recognizedDigit_le .Hundred (cursorAfter .Thousand s) (fun h => by cases h)
  have h1 := recognizedDigit_le .Ten (cursorAfter .Hundred (cursorAfter .Thousand s))
    (fun h => by cases h)
  have h0 := recognizedDigit_le .One
    (cursorAfter .Ten (cursorAfter .Hundred (cursorAfter .Thousand s))) (fun h => by cases h)
  simp only [Interpreter.maxDigit] at h2 h1 h0
  have hsplit := input_split s
  rw [hc, List.append_nil] at hsplit
  unfold finalTotal
  rw [canonicalNumeral_digits _ _ _ _ h2 h1 h0]
  exact hsplit

theorem finalTotal_pos (s : List Char) (hs : s ≠ []) (hc : finalCursor s = []) :
    0 < finalTotal s := by
  by_contra hz
  have h0 : finalTotal s = 0 := by omega
  have := eq_canonicalNumeral_of_consumed s hc
  rw [h0] at this
  exact hs (this.trans (by decide))

/-- The client entry point returns normally on every input, with a value
between `0` and `3999`. -/
theorem interpret_total_le (s : List Char) :
    ∃ n : Nat, interpret s = .ok (n : Int) ∧ n ≤ 3999 := by
  by_cases hs : s = []
  · exact ⟨0, by rw [hs]; rfl, by omega⟩
  · by_cases hc : finalCursor s = []
    · exact ⟨finalTotal s, by rw [interpret_eq s hs, if_pos hc], finalTotal_le s hs⟩
    · exact ⟨0, by rw [interpret_eq s hs, if_neg hc]; rfl, by omega⟩

/-- A non-zero result identifies the input as the canonical numeral of that
result. -/
theorem canonical_of_nonzero (s : List Char) (n : Int) (h : interpret s = .ok n)
    (hn : n ≠ 0) :
    ∃ m : Nat, n = m ∧ 1 ≤ m ∧ m ≤ 3999 ∧ s = canonicalNumeral m := by
  by_cases hs : s = []
  · rw [hs, interpret_nil] at h
    exact absurd (Except.ok.inj h).symm hn
  · rw [interpret_eq s hs] at h
    by_cases hc : finalCursor s = []
    · rw [if_pos hc] at h
      exact ⟨finalTotal s, (Except.ok.inj h).symm, finalTotal_pos s hs hc, finalTotal_le s hs,
        eq_canonicalNumeral_of_consumed s hc⟩
    · rw [if_neg hc] at h
      exact absurd (Except.ok.inj h).symm hn

/-! ## The client on canonical numerals -/

theorem head_digitString_append (self : Interpreter) (d : Nat) (hd : d ≤ self.maxDigit)
    (r : List Char) (c : Char) (h : (self.digitString d ++ r).head? = some c) :
    c ∈ self.one ++ self.five ∨ r.head? = some c := by
  cases self <;> simp only [Interpreter.maxDigit] at hd <;> interval_cases d <;>
    simp [Interpreter.digitString, repeatFragment, Interpreter.one, Interpreter.four,
      Interpreter.five, Interpreter.nine] at h ⊢ <;>
    first
      | exact Or.inr h
      | (subst h; simp)

theorem cursorAfter_digitString (self : Interpreter) (d : Nat)
    (hd : d ≤ self.maxDigit) (r : List Char)
    (hr : ∀ c, r.head? = some c → c ∉ self.symbols)
    (hg : self = .Thousand → self.digitString d ++ r ≠ []) :
    recognizedDigit self (self.digitString d ++ r) = d
      ∧ cursorAfter self (self.digitString d ++ r) = r := by
  obtain ⟨h1, h2⟩ := recognizedDigit_digitString self d hd r hr hg
  refine ⟨h1, ?_⟩
  unfold cursorAfter
  rw [h2, List.drop_left]

theorem digitString_eq_nil (self : Interpreter) (d : Nat) (hd : d ≤ self.maxDigit)
    (h : self.digitString d = []) : d = 0 := by
  cases self <;> simp only [Interpreter.maxDigit] at hd <;> interval_cases d <;>
    simp [Interpreter.digitString, repeatFragment, Interpreter.one, Interpreter.four,
      Interpreter.five, Interpreter.nine] at h ⊢

/-- The four matchers consume the four digit strings of a numeral one by one. -/
theorem final_of_digits (d3 d2 d1 d0 : Nat) (h3 : d3 ≤ 3) (h2 : d2 ≤ 9) (h1 : d1 ≤ 9)
    (h0 : d0 ≤ 9) (hpos : 0 < d3 + d2 + d1 + d0) :
    finalCursor (Interpreter.Thousand.digitString d3 ++ (Interpreter.Hundred.digitString d2
        ++ (Interpreter.Ten.digitString d1 ++ Interpreter.One.digitString d0))) = []
    ∧ finalTotal (Interpreter.Thousand.digitString d3 ++ (Interpreter.Hundred.digitString d2
        ++ (Interpreter.Ten.digitString d1 ++ Interpreter.One.digitString d0)))
      = d3 * 1000 + d2 * 100 + d1 * 10 + d0 := by
  have e0 := cursorAfter_digitString .One d0 h0 [] (by simp) (fun h => by cases h)
  rw [List.append_nil] at e0
  have e1 := cursorAfter_digitString .Ten d1 h1 (Interpreter.One.digitString d0)
    (by
      intro c hc
      have := head_digitString_append .One d0 h0 [] c (by simpa using hc)
      simp [Interpreter.one, Interpreter.five] at this
      rcases this with rfl | rfl <;> decide)
    (fun h => by cases h)
  have e2 := cursorAfter_digitString .Hundred d2 h2
    (Interpreter.Ten.digitString d1 ++ Interpreter.One.digitString d0)
    (by
      intro c hc
      rcases head_digitString_append .Ten d1 h1 _ c hc with h | h
      · simp [Interpreter.one, Interpreter.five] at h
        rcases h with rfl | rfl <;> decide
      · have := head_digitString_append .One d0 h0 [] c (by simpa using h)
        simp [Interpreter.one, Interpreter.five] at this
        rcases this with rfl | rfl <;> decide)
    (fun h => by cases h)
  have e3 := cursorAfter_digitString .Thousand d3 h3
    (Interpreter.Hundred.digitString d2
      ++ (Interpreter.Ten.digitString d1 ++ Interpreter.One.digitString d0))
    (by
      intro c hc
      rcases head_digitString_append .Hundred d2 h2 _ c hc with h | h
      · simp [Interpreter.one, Interpreter.five] at h
        rcases h with rfl | rfl <;> decide
      · rcases head_digitString_append .Ten d1 h1 _ c h with h | h
        · simp [Interpreter.one, Interpreter.five] at h
          rcases h with rfl | rfl <;> decide
        · have := head_digitString_append .One d0 h0 [] c (by simpa using h)
          simp [Interpreter.one, Interpreter.five] at this
          rcases this with rfl | rfl <;> decide)
    (by
      intro _ hnil
      simp only [List.append_eq_nil] at hnil
      have a3 := digitString_eq_nil .Thousand d3 h3 hnil.1
      have a2 := digitString_eq_nil .Hundred d2 h2 hnil.2.1
      have a1 := digitString_eq_nil .Ten d1 h1 hnil.2.2.1
      have a0 := digitString_eq_nil .One d0 h0 hnil.2.2.2
      omega)
  unfold finalCursor finalTotal
  rw [e3.1, e3.2, e2.1, e2.2, e1.1, e1.2, e0.1, e0.2]
  exact ⟨rfl, rfl⟩

theorem mem_digitString (self : Interpreter) (d : Nat) (hd : d ≤ self.maxDigit) (c : Char)
    (h : c ∈ self.digitString d) : c ∈ self.symbols := by
  cases self <;> simp only [Interpreter.maxDigit] at hd <;> interval_cases d <;>
    simp [Interpreter.digitString, repeatFragment, Interpreter.symbols, Interpreter.one,
      Interpreter.four, Interpreter.five, Interpreter.nine] at h ⊢ <;>
    (rcases h with rfl | rfl | rfl <;> simp)

theorem mem_canonicalNumeral (m : Nat) (hm : m ≤ 3999) (c : Char)
    (h : c ∈ canonicalNumeral m) : c ∈ ['M', 'D', 'C', 'L', 'X', 'V', 'I'] := by
  unfold canonicalNumeral at h
  simp only [List.mem_append] at h
  rcases h with ((h | h) | h) | h
  · have := mem_digitString .Thousand _ (by simp only [Interpreter.maxDigit]; omega) c h
    simp [Interpreter.symbols, Interpreter.one, Interpreter.four, Interpreter.five,
      Interpreter.nine] at this
    simp [this]
  · have := mem_digitString .Hundred _ (by simp only [Interpreter.maxDigit]; omega) c h
    simp [Interpreter.symbols, Interpreter.one, Interpreter.four, Interpreter.five,
      Interpreter.nine] at this
    rcases this with rfl | rfl | rfl | rfl | rfl <;> decide
  · have := mem_digitString .Ten _ (by simp only [Interpreter.maxDigit]; omega) c h
    simp [Interpreter.symbols, Interpreter.one, Interpreter.four, Interpreter.five,
      Interpreter.nine] at this
    rcases this with rfl | rfl | rfl | rfl | rfl <;> decide
  · have := mem_digitString .One _ (by simp only [Interpreter.maxDigit]; omega) c h
    simp [Interpreter.symbols, Interpreter.one, Interpreter.four, Interpreter.five,
      Interpreter.nine] at this
    rcases this with rfl | rfl | rfl | rfl | rfl <;> decide

/-- An input that starts with four `M` is rejected: the thousands matcher takes
three of them and no later matcher takes the fourth. -/
theorem interpret_four_M (w : List Char) :
    interpret ('M' :: 'M' :: 'M' :: 'M' :: w) = .ok 0 := by
  rw [interpret_eq _ (by simp)]
  have h : finalCursor ('M' :: 'M' :: 'M' :: 'M' :: w) = 'M' :: w := by
    simp [finalCursor, cursorAfter, consumed, fiveCount, oneCount, leadCount,
      Interpreter.one, Interpreter.four, Interpreter.five, Interpreter.nine]
  rw [h]
  simp

theorem hasRun4_of_infix (c : Char) (l : List Char) (h : List.replicate 4 c <:+: l) :
    hasRun4 c l = true := by
  induction l with
  | nil =>
    have := List.eq_nil_of_infix_nil h
    simp [List.replicate] at this
  | cons a l ih =>
    rcases List.infix_cons_iff.mp h with hp | hi
    · simp only [hasRun4, Bool.or_eq_true]
      exact Or.inl (List.isPrefixOf_iff_prefix.mpr hp)
    · simp only [hasRun4, Bool.or_eq_true]
      exact Or.inr (ih hi)

set_option maxRecDepth 100000 in
/-- No canonical arrangement of four digit strings contains four consecutive
`I`, `X` or `C`: checked on all `4 * 10 * 10 * 10` digit combinations. -/
theorem hasRun4_digits :
    ∀ c ∈ ['I', 'X', 'C'], ∀ d3 < 4, ∀ d2 < 10, ∀ d1 < 10, ∀ d0 < 10,
      hasRun4 c (Interpreter.Thousand.digitString d3 ++ (Interpreter.Hundred.digitString d2
        ++ (Interpreter.Ten.digitString d1 ++ Interpreter.One.digitString d0))) = false := by
  decide

/-! ## The reference converter agrees with the closed form -/

theorem Reference.descriptors_eq :
    Reference.descriptors = [Reference.ofClass .Thousand, Reference.ofClass .Hundred,
      Reference.ofClass .Ten, Reference.ofClass .One] := rfl

theorem Reference.matchOnes_eq (self : Interpreter) (k : Nat) (l : List Char) (t : Int) :
    Reference.matchOnes (Reference.ofClass self) k ⟨l, t⟩
      = ⟨l.drop (leadCount self.one k l),
         t + (leadCount self.one k l : Nat) * self.multiplier⟩ := by
  induction k generalizing l t with
  | zero => simp [Reference.matchOnes, leadCount]
  | succ k ih =>
    have hone : self.one.length = 1 ∧ self.one.isEmpty = false := by
      cases self <;> exact ⟨rfl, rfl⟩
    simp only [Reference.matchOnes, Reference.startsWith, Reference.ofClass, hone.1, hone.2,
      Bool.not_false, Bool.true_and, beq_iff_eq, leadCount]
    by_cases hm : l.take 1 = self.one
    · simp only [hm, if_true]
      have := ih (l.drop 1) (t + 1 * self.multiplier)
      simp only [Reference.ofClass] at this
      rw [this, List.drop_drop]
      congr 1
      push_cast
      ring
    · simp [hm]

theorem Reference.startsWith_two (s frag : List Char) (hs : s ≠ [])
    (hf : frag = [] ∨ frag.length = 2) :
    Reference.startsWith s frag = true ↔ s.take 2 = frag := by
  rcases hf with rfl | hf
  · cases s with
    | nil => exact absurd rfl hs
    | cons a l => cases l <;> simp [Reference.startsWith]
  · have : frag ≠ [] := by
      intro h
      rw [h] at hf
      cases hf
    simp [Reference.startsWith, hf, this]

theorem Reference.startsWith_one (s frag : List Char) (hs : s ≠ [])
    (hf : frag = [] ∨ frag.length = 1) :
    Reference.startsWith s frag = true ↔ s.take 1 = frag := by
  rcases hf with rfl | hf
  · cases s with
    | nil => exact absurd rfl hs
    | cons a l => simp [Reference.startsWith]
  · have : frag ≠ [] := by
      intro h
      rw [h] at hf
      cases hf
    simp [Reference.startsWith, hf, this]

theorem Reference.startsWith_nil (frag : List Char) (hf : frag ≠ []) :
    Reference.startsWith [] frag = false := by
  cases frag with
  | nil => exact absurd rfl hf
  | cons a l => simp [Reference.startsWith]

theorem Reference.matcher_eq (self : Interpreter) (s : List Char) (t : Int)
    (hg : self = .Thousand → s ≠ []) :
    Reference.matcher (Reference.ofClass self) ⟨s, t⟩
      = ⟨cursorAfter self s, t + (recognizedDigit self s : Nat) * self.multiplier⟩ := by
  have h9 : Reference.startsWith s self.nine = true ↔ s.take 2 = self.nine := by
    cases s with
    | nil =>
      have : self.nine ≠ [] := by
        cases self <;> simp [Interpreter.nine] at hg ⊢
      rw [Reference.startsWith_nil _ this]
      simpa using this.symm
    | cons a l =>
      apply Reference.startsWith_two _ _ (by simp)
      cases self <;> simp [Interpreter.nine]
  have h4 : Reference.startsWith s self.four = true ↔ s.take 2 = self.four := by
    cases s with
    | nil =>
      have : self.four ≠ [] := by
        cases self <;> simp [Interpreter.four] at hg ⊢
      rw [Reference.startsWith_nil _ this]
      simpa using this.symm
    | cons a l =>
      apply Reference.startsWith_two _ _ (by simp)
      cases self <;> simp [Interpreter.four]
  have h5 : Reference.startsWith s self.five = true ↔ s.take 1 = self.five := by
    cases s with
    | nil =>
      have : self.five ≠ [] := by
        cases self <;> simp [Interpreter.five] at hg ⊢
      rw [Reference.startsWith_nil _ this]
      simpa using this.symm
    | cons a l =>
      apply Reference.startsWith_one _ _ (by simp)
      cases self <;> simp [Interpreter.five]
  unfold Reference.matcher cursorAfter consumed recognizedDigit
  simp only [show (Reference.ofClass self).nine = self.nine from rfl,
    show (Reference.ofClass self).four = self.four from rfl,
    show (Reference.ofClass self).five = self.five from rfl,
    show (Reference.ofClass self).multiplier = self.multiplier from rfl, h9, h4, h5]
  by_cases e9 : s.take 2 = self.nine
  · rw [if_pos e9, if_pos e9, if_pos e9, take_two_ne_nine self s hg e9]
    simp
  · rw [if_neg e9, if_neg e9, if_neg e9]
    by_cases e4 : s.take 2 = self.four
    · rw [if_pos e4, if_pos e4, if_pos e4, take_two_ne_four self s hg e4]
      simp
    · rw [if_neg e4, if_neg e4, if_neg e4]
      unfold oneCount fiveCount
      by_cases e5 : s.take 1 = self.five
      · have hl : self.five.length = 1 := by
          cases self
          · exfalso
            apply hg rfl
            cases s <;> simp [Interpreter.five] at e5 ⊢
          all_goals rfl
        rw [if_pos e5, if_pos e5, Reference.matchOnes_eq, hl, List.drop_drop]
        congr 1
        push_cast
        ring
      · rw [if_neg e5, if_neg e5, Reference.matchOnes_eq]
        simp

theorem Reference.foldl_matcher_eq (s : List Char) (hs : s ≠ []) :
    Reference.descriptors.foldl (fun st d => Reference.matcher d st) ⟨s, 0⟩
      = ⟨finalCursor s, (finalTotal s : Nat)⟩ := by
  rw [Reference.descriptors_eq]
  simp only [List.foldl_cons, List.foldl_nil]
  rw [Reference.matcher_eq .Thousand s 0 (fun _ => hs),
    Reference.matcher_eq .Hundred _ _ (fun h => by cases h),
    Reference.matcher_eq .Ten _ _ (fun h => by cases h),
    Reference.matcher_eq .One _ _ (fun h => by cases h)]
  simp only [finalCursor, finalTotal, Interpreter.multiplier, State.mk.injEq, true_and]
  push_cast
  ring

/-! ## The claims -/

/-- C1: for every integer `n` with `1 ≤ n ≤ 3999`, the client entry point
`Interpreter::interpret(const string&)` applied to the canonical Roman numeral
of `n` returns exactly `n`. -/
theorem C1_interpret_canonicalNumeral (n : Nat) (h1 : 1 ≤ n) (h2 : n ≤ 3999) :
    interpret (canonicalNumeral n) = .ok (n : Int) := by
  have hn : n = n / 1000 * 1000 + n / 100 % 10 * 100 + n / 10 % 10 * 10 + n % 10 := by omega
  have hd3 : n / 1000 ≤ 3 := by omega
  have hd2 : n / 100 % 10 ≤ 9 := by omega
  have hd1 : n / 10 % 10 ≤ 9 := by omega
  have hd0 : n % 10 ≤ 9 := by omega
  have hcan := canonicalNumeral_digits (n / 1000) (n / 100 % 10) (n / 10 % 10) (n % 10)
    hd2 hd1 hd0
  rw [← hn] at hcan
  obtain ⟨hc, ht⟩ := final_of_digits (n / 1000) (n / 100 % 10) (n / 10 % 10) (n % 10)
    hd3 hd2 hd1 hd0 (by omega)
  rw [← hcan] at hc ht
  have hs : canonicalNumeral n ≠ [] := by
    intro hnil
    rw [hnil] at ht
    have : finalTotal [] = 9000 := by decide
    omega
  rw [interpret_eq _ hs, if_pos hc, ht, ← hn]

/-- The examples of C1 printed by `main`: `"MCMXCVI"`, `"MMMCMXCIX"`, `"MDCLXVI"`
and `"DCCCLXXXVIII"` are the canonical numerals of 1996, 3999, 1666 and 888 and
are interpreted as these numbers. -/
theorem C1_interpret_canonicalNumeral_witness :
    (1 ≤ 1996 ∧ 1996 ≤ 3999 ∧ canonicalNumeral 1996 = "MCMXCVI".toList
      ∧ interpret "MCMXCVI".toList = .ok 1996)
    ∧ (canonicalNumeral 3999 = "MMMCMXCIX".toList
      ∧ interpret "MMMCMXCIX".toList = .ok 3999)
    ∧ (canonicalNumeral 1666 = "MDCLXVI".toList ∧ interpret "MDCLXVI".toList = .ok 1666)
    ∧ (canonicalNumeral 888 = "DCCCLXXXVIII".toList
      ∧ interpret "DCCCLXXXVIII".toList = .ok 888) :=
  ⟨⟨by decide, by decide, by decide,
      C1_interpret_canonicalNumeral 1996 (by decide) (by decide)⟩,
    ⟨by decide, C1_interpret_canonicalNumeral 3999 (by decide) (by decide)⟩,
    ⟨by decide, C1_interpret_canonicalNumeral 1666 (by decide) (by decide)⟩,
    ⟨by decide, C1_interpret_canonicalNumeral 888 (by decide) (by decide)⟩⟩

/-- C2: if the client entry point returns a non-zero value `n` on the input
`s`, then `1 ≤ n ≤ 3999` and `s` is exactly the canonical Roman numeral of `n`,
one digit group per magnitude in the order thousands, hundreds, tens, ones.
Hence the invalidly ordered input `"CXCX"` returns `0`. -/
theorem C2_nonzero_is_canonical (s : List Char) (n : Int) (h : interpret s = .ok n)
    (hn : n ≠ 0) :
    (1 ≤ n ∧ n ≤ 3999 ∧ s = canonicalNumeral n.toNat)
      ∧ interpret "CXCX".toList = .ok 0 := by
  obtain ⟨m, rfl, hm1, hm2, hs⟩ := canonical_of_nonzero s n h hn
  refine ⟨⟨by omega, by omega, ?_⟩, rfl⟩
  simpa using hs

/-- C2 at the input `"MCMXCVI"`, which returns the non-zero value 1996. -/
theorem C2_nonzero_is_canonical_witness :
    (interpret "MCMXCVI".toList = .ok 1996 ∧ (1996 : Int) ≠ 0)
      ∧ ((1 ≤ (1996 : Int) ∧ (1996 : Int) ≤ 3999
          ∧ "MCMXCVI".toList = canonicalNumeral (1996 : Int).toNat)
        ∧ interpret "CXCX".toList = .ok 0) :=
  ⟨⟨rfl, by decide⟩, C2_nonzero_is_canonical "MCMXCVI".toList 1996 rfl (by decide)⟩

/-- C3, the claim as stated fails: `"MMMM"`, four `M` followed by the (empty)
canonical numeral of `0`, is interpreted as `0` and not as `4000`. -/
theorem C3_four_M_counterexample :
    List.replicate 4 'M' ++ canonicalNumeral 0 = "MMMM".toList
      ∧ interpret "MMMM".toList = .ok 0
      ∧ interpret "MMMM".toList ≠ .ok ((1000 * 4 + 0 : Nat) : Int) := by
  refine ⟨by decide, rfl, ?_⟩
  rw [show interpret "MMMM".toList = .ok 0 from rfl]
  intro h
  exact absurd (Except.ok.inj h) (by decide)

/-- C3, amended: repetition of `M` beyond three is rejected.  For every
`k ≥ 4`, the client entry point applied to `k` copies of `M` followed by the
canonical numeral of any `r` in `0..999` returns `0`. -/
theorem C3_four_M_rejected (k r : Nat) (hk : 4 ≤ k) (_hr : r ≤ 999) :
    interpret (List.replicate k 'M' ++ canonicalNumeral r) = .ok 0 := by
  obtain ⟨j, rfl⟩ : ∃ j, k = j + 4 := ⟨k - 4, by omega⟩
  simp only [List.replicate_succ, List.cons_append]
  exact interpret_four_M _

/-- C3 amended, at `k = 4` and `r = 0`: `"MMMM"` returns `0`. -/
theorem C3_four_M_rejected_witness :
    (4 ≤ 4 ∧ 0 ≤ 999) ∧ interpret (List.replicate 4 'M' ++ canonicalNumeral 0) = .ok 0 :=
  ⟨by decide, C3_four_M_rejected 4 0 (by decide) (by decide)⟩

/-- C4: the client entry point returns `0` exactly when the input is empty or
the four matchers, run in the order thousands, hundreds, tens, ones, leave at
least one unconsumed character; otherwise it returns the accumulated total,
which is then strictly positive.  In particular the empty input returns `0`. -/
theorem C4_zero_iff_empty_or_leftover (s : List Char) :
    (interpret s = .ok 0
        ↔ (s = [] ∨ ∃ st, runMatchers ⟨s, 0⟩ = .ok st ∧ st.input ≠ []))
      ∧ (¬ (s = [] ∨ ∃ st, runMatchers ⟨s, 0⟩ = .ok st ∧ st.input ≠ [])
          → ∃ st, runMatchers ⟨s, 0⟩ = .ok st ∧ st.input = []
              ∧ interpret s = .ok st.total ∧ 0 < st.total)
      ∧ interpret [] = .ok 0 := by
  refine ⟨?_, ?_, rfl⟩
  · by_cases hs : s = []
    · subst hs
      exact ⟨fun _ => Or.inl rfl, fun _ => rfl⟩
    · rw [interpret_eq s hs, runMatchers_eq s hs]
      by_cases hc : finalCursor s = []
      · have hpos := finalTotal_pos s hs hc
        rw [if_pos hc]
        constructor
        · intro h
          have := Except.ok.inj h
          omega
        · rintro (h | ⟨st, h1, h2⟩)
          · exact absurd h hs
          · have := Except.ok.inj h1
            subst this
            exact absurd hc h2
      · rw [if_neg hc]
        exact ⟨fun _ => Or.inr ⟨_, rfl, hc⟩, fun _ => rfl⟩
  · intro h
    have hs : s ≠ [] := fun e => h (Or.inl e)
    have hc : finalCursor s = [] := by
      by_contra hc
      exact h (Or.inr ⟨_, runMatchers_eq s hs, hc⟩)
    refine ⟨_, runMatchers_eq s hs, hc, ?_, ?_⟩
    · rw [interpret_eq s hs, if_pos hc]
    · have := finalTotal_pos s hs hc
      simp only
      omega

/-- C4 at the input `"MCMXCVI"`, which is not empty and is fully consumed: the
result is the accumulated total 1996. -/
theorem C4_zero_iff_empty_or_leftover_witness :
    ∃ st, runMatchers ⟨"MCMXCVI".toList, 0⟩ = .ok st ∧ st.input = []
      ∧ interpret "MCMXCVI".toList = .ok st.total ∧ 0 < st.total :=
  (C4_zero_iff_empty_or_leftover "MCMXCVI".toList).2.1 (by
    rintro (h | ⟨st, h1, h2⟩)
    · exact absurd h (by decide)
    · have h3 : runMatchers ⟨"MCMXCVI".toList, 0⟩ = .ok ⟨[], 1996⟩ := rfl
      have := Except.ok.inj (h3.symm.trans h1)
      subst this
      exact h2 rfl)

/-- C5: every input that contains at least one character outside the set
`M, D, C, L, X, V, I`, at any position, is interpreted as `0`. -/
theorem C5_foreign_character (s : List Char) (c : Char) (hc : c ∈ s)
    (hout : c ∉ ['M', 'D', 'C', 'L', 'X', 'V', 'I']) : interpret s = .ok 0 := by
  obtain ⟨n, hn, _⟩ := interpret_total_le s
  by_cases h0 : (n : Int) = 0
  · rw [hn, h0]
  · obtain ⟨m, _, _, hm, hs⟩ := canonical_of_nonzero s n hn h0
    rw [hs] at hc
    exact absurd (mem_canonicalNumeral m hm c hc) hout

/-- C5 at the input `"MCm XVI"` with the lowercase letter `m`. -/
theorem C5_foreign_character_witness :
    ('m' ∈ "MCm XVI".toList ∧ 'm' ∉ ['M', 'D', 'C', 'L', 'X', 'V', 'I'])
      ∧ interpret "MCm XVI".toList = .ok 0 :=
  ⟨by decide, C5_foreign_character "MCm XVI".toList 'm' (by decide) (by decide)⟩

/-- C6: every input in which one of the unit symbols `I`, `X` or `C` occurs
four or more times consecutively, anywhere in the string, is interpreted
as `0`. -/
theorem C6_four_unit_symbols (s : List Char) (c : Char) (hc : c ∈ ['I', 'X', 'C'])
    (h : List.replicate 4 c <:+: s) : interpret s = .ok 0 := by
  obtain ⟨n, hn, _⟩ := interpret_total_le s
  by_cases h0 : (n : Int) = 0
  · rw [hn, h0]
  · exfalso
    obtain ⟨m, _, _, hm, hs⟩ := canonical_of_nonzero s n hn h0
    have hrun := hasRun4_of_infix c s h
    have hcan := canonicalNumeral_digits (m / 1000) (m / 100 % 10) (m / 10 % 10) (m % 10)
      (by omega) (by omega) (by omega)
    rw [show m / 1000 * 1000 + m / 100 % 10 * 100 + m / 10 % 10 * 10 + m % 10 = m by omega]
      at hcan
    rw [hs, hcan, hasRun4_digits c hc (m / 1000) (by omega) (m / 100 % 10) (by omega)
      (m / 10 % 10) (by omega) (m % 10) (by omega)] at hrun
    exact Bool.false_ne_true hrun

/-- C6 at the input `"MDCLXVIIII"` printed by `main`: four `I` in a row. -/
theorem C6_four_unit_symbols_witness :
    ('I' ∈ ['I', 'X', 'C'] ∧ List.replicate 4 'I' <:+: "MDCLXVIIII".toList)
      ∧ interpret "MDCLXVIIII".toList = .ok 0 :=
  ⟨⟨by decide, by decide⟩,
    C6_four_unit_symbols "MDCLXVIIII".toList 'I' (by decide) (by decide)⟩

/-- C7, the claim as stated fails when the addition overflows the `int` total:
for the hundreds recognizer on the non-empty cursor `"CM"` (the digit string of
9) with total `INT_MAX`, the matcher leaves the total `-2147482749`, which is
not `INT_MAX + 9 * 100`; no digit `d` makes the new total `total + d * 100`. -/
theorem C7_overflow_counterexample :
    "CM".toList ≠ []
      ∧ Interpreter.Hundred.digitString 9 = "CM".toList
      ∧ Interpreter.Hundred.interpret ⟨"CM".toList, CppInt.INT_MAX⟩
          = .ok ⟨[], -2147482749⟩
      ∧ ¬ ∃ d : Nat, Interpreter.Hundred.interpret ⟨"CM".toList, CppInt.INT_MAX⟩
          = .ok ⟨"CM".toList.drop (Interpreter.Hundred.digitString d).length,
              CppInt.INT_MAX + (d : Int) * Interpreter.Hundred.multiplier⟩ := by
  have e : Interpreter.Hundred.interpret ⟨"CM".toList, CppInt.INT_MAX⟩
      = .ok ⟨[], -2147482749⟩ := rfl
  refine ⟨by decide, by decide, e, ?_⟩
  rintro ⟨d, hd⟩
  rw [e] at hd
  have h := congrArg State.total (Except.ok.inj hd)
  simp only [CppInt.INT_MAX, Interpreter.multiplier] at h
  omega

/-- C7, amended: for each of the four recognizers, every non-empty cursor and
every `int` total, the matcher `Interpreter::interpret(string&, int&)` returns
normally, removes from the cursor exactly the longest prefix that is a valid
digit string of that magnitude (a digit `d` in `0..9` written with the
one/four/five/nine forms, in `0..3` as repeated `M` for thousands) and adds
`d * multiplier` to the total in 32-bit `int` arithmetic: the new total is
exactly `total + d * multiplier` whenever that sum does not exceed `INT_MAX`,
and that sum wrapped around modulo `2^32` otherwise. -/
theorem C7_longest_digit_prefix (self : Interpreter) (s : List Char) (t : Int)
    (hs : s ≠ []) (h0 : CppInt.INT_MIN ≤ t) (h1 : t ≤ CppInt.INT_MAX) :
    ∃ d, d ≤ self.maxDigit
      ∧ self.digitString d <+: s
      ∧ (∀ d', d' ≤ self.maxDigit → self.digitString d' <+: s
          → (self.digitString d').length ≤ (self.digitString d).length)
      ∧ self.interpret ⟨s, t⟩
          = .ok ⟨s.drop (self.digitString d).length,
              CppInt.wrap (t + (d : Int) * self.multiplier)⟩
      ∧ (t + (d : Int) * self.multiplier ≤ CppInt.INT_MAX
          → self.interpret ⟨s, t⟩
              = .ok ⟨s.drop (self.digitString d).length, t + (d : Int) * self.multiplier⟩) := by
  have hg : self = .Thousand → s ≠ [] := fun _ => hs
  have hw : addWrapped t (recognizedDigit self s) self.multiplier
      = CppInt.wrap (t + (recognizedDigit self s : Int) * self.multiplier) := by
    unfold addWrapped
    split
    · rename_i h
      rw [h]
      simp [CppInt.wrap_of_range t h0 h1]
    · rfl
  have hm : (0 : Int) ≤ self.multiplier := by
    cases self <;> simp [Interpreter.multiplier]
  refine ⟨recognizedDigit self s, recognizedDigit_le self s hg,
    ⟨_, digitString_append_drop self s⟩, ?_, ?_, ?_⟩
  · rintro d' hd' ⟨r, hr⟩
    rw [digitString_length self s hg]
    have := digitString_length_le_consumed self d' hd' r
    rwa [hr] at this
  · rw [digitString_length self s hg, ← hw]
    exact Interpreter.interpret_closed_form self s t hg
  · intro hle
    rw [digitString_length self s hg, Interpreter.interpret_closed_form self s t hg, hw,
      CppInt.wrap_of_range _ ?_ hle]
    have : (0 : Int) ≤ (recognizedDigit self s : Int) * self.multiplier :=
      Int.mul_nonneg (Int.ofNat_nonneg _) hm
    omega

/-- C7 amended, for the hundreds recognizer on the cursor `"CMXCVI"` with total
1000: the longest digit prefix is `"CM"`, digit 9, and 900 is added. -/
theorem C7_longest_digit_prefix_witness :
    ("CMXCVI".toList ≠ [] ∧ CppInt.INT_MIN ≤ 1000 ∧ (1000 : Int) ≤ CppInt.INT_MAX)
      ∧ ∃ d, d ≤ Interpreter.Hundred.maxDigit
        ∧ Interpreter.Hundred.digitString d <+: "CMXCVI".toList
        ∧ (∀ d', d' ≤ Interpreter.Hundred.maxDigit
            → Interpreter.Hundred.digitString d' <+: "CMXCVI".toList
            → (Interpreter.Hundred.digitString d').length
                ≤ (Interpreter.Hundred.digitString d).length)
        ∧ Interpreter.Hundred.interpret ⟨"CMXCVI".toList, 1000⟩
            = .ok ⟨"CMXCVI".toList.drop (Interpreter.Hundred.digitString d).length,
                CppInt.wrap (1000 + (d : Int) * Interpreter.Hundred.multiplier)⟩
        ∧ (1000 + (d : Int) * Interpreter.Hundred.multiplier ≤ CppInt.INT_MAX
            → Interpreter.Hundred.interpret ⟨"CMXCVI".toList, 1000⟩
                = .ok ⟨"CMXCVI".toList.drop (Interpreter.Hundred.digitString d).length,
                    1000 + (d : Int) * Interpreter.Hundred.multiplier⟩) :=
  ⟨⟨by decide, by decide, by decide⟩,
    C7_longest_digit_prefix .Hundred "CMXCVI".toList 1000 (by decide) (by decide) (by decide)⟩

/-- C8, the claim as stated fails for the thousands recognizer on the empty
cursor: no non-empty fragment starts the cursor, yet `compare(0, 2, "")` is
`0` there, so the matcher adds `9 * 1000` to the total and then
`substr(2)` throws `std::out_of_range`. -/
theorem C8_thousand_empty_cursor_counterexample :
    (∀ f ∈ Interpreter.Thousand.fragments, f ≠ [] → ¬ f <+: ([] : List Char))
      ∧ Interpreter.Thousand.interpret ⟨[], 0⟩ = .error ⟨[], 9000⟩
      ∧ Interpreter.Thousand.interpret ⟨[], 0⟩ ≠ .ok ⟨[], 0⟩ := by
  refine ⟨by decide, rfl, ?_⟩
  rw [show Interpreter.Thousand.interpret ⟨[], 0⟩ = .error ⟨[], 9000⟩ from rfl]
  intro h
  cases h

/-- C8, amended: for the hundreds, tens and ones recognizers and every cursor,
the empty one included, and for the thousands recognizer and every non-empty
cursor (the only ones the client hands to it), if the cursor does not begin
with any of the recognizer's non-empty fragments then the matcher raises no
error and leaves both the cursor and the total unchanged. -/
theorem C8_no_match_unchanged (self : Interpreter) (s : List Char) (t : Int)
    (hg : self = .Thousand → s ≠ [])
    (h : ∀ f ∈ self.fragments, f ≠ [] → ¬ f <+: s) :
    self.interpret ⟨s, t⟩ = .ok ⟨s, t⟩ := by
  have hfrag : ∀ f ∈ self.fragments, ∀ k, 0 < k → ¬ s.take k = f := by
    intro f hf k hk e
    by_cases hnil : f = []
    · subst hnil
      have hs : s = [] := by
        cases s with
        | nil => rfl
        | cons a l =>
          obtain ⟨j, rfl⟩ : ∃ j, k = j + 1 := ⟨k - 1, by omega⟩
          simp at e
      cases self <;>
        simp [Interpreter.fragments, Interpreter.one, Interpreter.four, Interpreter.five,
          Interpreter.nine] at hf
      exact hg rfl hs
    · exact h f hf hnil (e ▸ List.take_prefix k s)
  have h9 := hfrag self.nine (by simp [Interpreter.fragments]) 2 (by omega)
  have h4 := hfrag self.four (by simp [Interpreter.fragments]) 2 (by omega)
  have h5 := hfrag self.five (by simp [Interpreter.fragments]) 1 (by omega)
  have h1 := hfrag self.one (by simp [Interpreter.fragments]) 1 (by omega)
  rw [Interpreter.interpret_closed_form self s t hg]
  have hf0 : fiveCount self s = 0 := by simp [fiveCount, h5]
  have ho0 : oneCount self s = 0 := by simp [oneCount, hf0, leadCount, h1]
  simp [consumed, recognizedDigit, addWrapped, h9, h4, hf0, ho0]

/-- C8 amended, for the hundreds recognizer on the empty cursor and for the
thousands recognizer on the cursor `"CXCX"`. -/
theorem C8_no_match_unchanged_witness :
    ((Interpreter.Hundred = Interpreter.Thousand → ([] : List Char) ≠ [])
        ∧ (∀ f ∈ Interpreter.Hundred.fragments, f ≠ [] → ¬ f <+: ([] : List Char))
        ∧ Interpreter.Hundred.interpret ⟨[], 3000⟩ = .ok ⟨[], 3000⟩)
      ∧ Interpreter.Thousand.interpret ⟨"CXCX".toList, 0⟩ = .ok ⟨"CXCX".toList, 0⟩ :=
  ⟨⟨by decide, by decide,
      C8_no_match_unchanged .Hundred [] 3000 (by decide) (by decide)⟩,
    C8_no_match_unchanged .Thousand "CXCX".toList 0 (by decide) (by decide)⟩

/-- C9: on every input, the client entry point as coded (per-class virtual
fragments, hard-coded compare lengths 2 and 1, no non-empty-fragment guard)
returns the same value as the reference converter of the specification: the
generic matcher (prefix length = fragment length, fragment non-empty) folded
over the fixed descriptor list, with the empty-input short-circuit and the
final leftover check. -/
theorem C9_interpret_refines_reference (s : List Char) :
    interpret s = .ok (Reference.convert s) := by
  by_cases hs : s = []
  · subst hs
    rfl
  · have h1 : s.isEmpty = false := by cases s <;> simp at hs ⊢
    rw [interpret_eq s hs]
    unfold Reference.convert
    simp only [h1, Bool.false_eq_true, if_false, Reference.foldl_matcher_eq s hs]
    by_cases hc : finalCursor s = []
    · simp [hc]
    · have h2 : (finalCursor s).isEmpty = false := by
        cases h : finalCursor s <;> simp [h] at hc ⊢
      simp [hc, h2]

/-- C10: for every non-empty input, the four matcher invocations of the client
entry point all return normally, the cursor after each of them is a suffix of
the cursor before it, and so the remaining length is non-increasing across the
four steps and never exceeds the input length. -/
theorem C10_monotonic_consumption (s : List Char) (hs : s ≠ []) :
    ∃ s1 s2 s3 s4 : State,
      Interpreter.Thousand.interpret ⟨s, 0⟩ = .ok s1
      ∧ Interpreter.Hundred.interpret s1 = .ok s2
      ∧ Interpreter.Ten.interpret s2 = .ok s3
      ∧ Interpreter.One.interpret s3 = .ok s4
      ∧ runMatchers ⟨s, 0⟩ = .ok s4
      ∧ (s1.input <:+ s ∧ s2.input <:+ s1.input ∧ s3.input <:+ s2.input
          ∧ s4.input <:+ s3.input)
      ∧ (s4.input.length ≤ s3.input.length ∧ s3.input.length ≤ s2.input.length
          ∧ s2.input.length ≤ s1.input.length ∧ s1.input.length ≤ s.length) := by
  obtain ⟨e1, e2, e3, e4⟩ := matchers_ok s hs
  have c1 := cursorAfter_suffix .Thousand s
  have c2 := cursorAfter_suffix .Hundred (cursorAfter .Thousand s)
  have c3 := cursorAfter_suffix .Ten (cursorAfter .Hundred (cursorAfter .Thousand s))
  have c4 := cursorAfter_suffix .One
    (cursorAfter .Ten (cursorAfter .Hundred (cursorAfter .Thousand s)))
  refine ⟨_, _, _, _, e1, e2, e3, e4, ?_, ⟨c1, c2, c3, c4⟩,
    ⟨c4.length_le, c3.length_le, c2.length_le, c1.length_le⟩⟩
  simp only [runMatchers, e1, e2, e3, e4]

/-- C10 at the input `"MCMXCVI"`. -/
theorem C10_monotonic_consumption_witness :
    "MCMXCVI".toList ≠ []
      ∧ ∃ s1 s2 s3 s4 : State,
        Interpreter.Thousand.interpret ⟨"MCMXCVI".toList, 0⟩ = .ok s1
        ∧ Interpreter.Hundred.interpret s1 = .ok s2
        ∧ Interpreter.Ten.interpret s2 = .ok s3
        ∧ Interpreter.One.interpret s3 = .ok s4
        ∧ runMatchers ⟨"MCMXCVI".toList, 0⟩ = .ok s4
        ∧ (s1.input <:+ "MCMXCVI".toList ∧ s2.input <:+ s1.input ∧ s3.input <:+ s2.input
            ∧ s4.input <:+ s3.input)
        ∧ (s4.input.length ≤ s3.input.length ∧ s3.input.length ≤ s2.input.length
            ∧ s2.input.length ≤ s1.input.length
            ∧ s1.input.length ≤ "MCMXCVI".toList.length) :=
  ⟨by decide, C10_monotonic_consumption "MCMXCVI".toList (by decide)⟩

end RomanInterpreter

namespace Vending

/-- C11, the code at the failing input: the first call of `main`,
`sell(10)` on a machine built with 10 units, does not succeed.  `InStock::sell`
stores the new stock through `set_stock_units`, which runs off the end of a
value-returning function: undefined behaviour, with the stock already 0 and
the state still `InStock`.  More generally no call of `sell` returns normally:
in state `OutOfStock` it throws "Sold out", in state `InStock` with
`stock_units < n` it throws "Insufficient inventory", both with the machine
unchanged, and otherwise it ends in undefined behaviour after storing the
32-bit difference (at stock 10 and `n = INT_MIN` that is `-2147483638`). -/
theorem C11_sell_success_is_undefined :
    (new_VendingMachine 10).sell 10 = .error (.undefined_behaviour, ⟨.InStock, 0⟩)
      ∧ (∀ k n : Int, (⟨.OutOfStock, k⟩ : VendingMachine).sell n
          = .error (.runtime_error "Sold out", ⟨.OutOfStock, k⟩))
      ∧ (∀ k n : Int, (⟨.InStock, k⟩ : VendingMachine).sell n
          = if k < n then .error (.runtime_error "Insufficient inventory", ⟨.InStock, k⟩)
            else .error (.undefined_behaviour, ⟨.InStock, CppInt.wrap (k - n)⟩))
      ∧ (⟨.InStock, 10⟩ : VendingMachine).sell CppInt.INT_MIN
          = .error (.undefined_behaviour, ⟨.InStock, -2147483638⟩) := by
  refine ⟨rfl, fun _ _ => rfl, ?_, rfl⟩
  intro k n
  simp only [VendingMachine.sell, InventoryState.sell, VendingMachine.stock_units,
    VendingMachine.set_stock_units]


end Vending

namespace Strategy

theorem find_first_not_of_le (s : List Char) (c : Char) (i : Nat)
    (h : find_first_not_of s c = some i) : i < s.length := by
  induction s generalizing i with
  | nil => simp [find_first_not_of] at h
  | cons x xs ih =>
    simp only [find_first_not_of] at h
    split at h
    · cases h
      simp
    · cases hx : find_first_not_of xs c with
      | none => simp [hx] at h
      | some j =>
        simp only [hx, Option.map_some', Option.some.injEq] at h
        have := ih j hx
        simp only [List.length_cons]
        omega

theorem drop_find_first_not_of (s : List Char) (c : Char) :
    s.drop ((find_first_not_of s c).getD s.length) = s.dropWhile (· == c) := by
  induction s with
  | nil => simp
  | cons x xs ih =>
    simp only [find_first_not_of, List.dropWhile_cons]
    by_cases hx : x = c
    · simp only [hx, ne_eq, not_true_eq_false, if_false, beq_self_eq_true, if_true]
      cases hf : find_first_not_of xs c with
      | none => simpa [hf] using ih
      | some j => simpa [hf] using ih
    · simp [hx]

theorem erase_leading (s : List Char) (c : Char) :
    erase s 0 (find_first_not_of s c) = some (s.dropWhile (· == c)) := by
  have h := drop_find_first_not_of s c
  cases hf : find_first_not_of s c with
  | none =>
    rw [hf] at h
    simp only [Option.getD_none, List.drop_length] at h
    simp [erase, ← h]
  | some j =>
    rw [hf] at h
    simp only [Option.getD_some] at h
    simp [erase, h]

theorem erase_trailing (s : List Char) (c : Char) :
    erase s (succ_pos (find_last_not_of s c)) none = some (s.rdropWhile (· == c)) := by
  have h := drop_find_first_not_of s.reverse c
  unfold List.rdropWhile
  rw [← h, List.drop_reverse, List.reverse_reverse]
  unfold find_last_not_of
  cases hf : find_first_not_of s.reverse c with
  | none => simp [succ_pos, erase]
  | some j =>
    have hj := find_first_not_of_le s.reverse c j hf
    simp only [List.length_reverse] at hj
    simp only [Option.map_some', succ_pos, Option.getD_some, erase]
    rw [show s.length - 1 - j + 1 = s.length - j by omega]
    rw [if_neg (by omega)]

theorem trim_eq (s : List Char) : trim s = some (strip s) := by
  simp only [trim, erase_leading, erase_trailing, strip]

theorem apply_to_eq (self : TextAlignment) (text : List Char) :
    self.apply_to text = some (self.padded (strip text)) := by
  unfold TextAlignment.apply_to TextAlignment.padded
  rw [trim_eq]
  cases self <;> simp only <;> split <;> rfl

theorem rdropWhile_append_replicate (l : List Char) (n : Nat) :
    (l ++ List.replicate n ' ').rdropWhile (· == ' ') = l.rdropWhile (· == ' ') := by
  induction n with
  | zero => simp
  | succ n ih =>
    rw [List.replicate_succ', ← List.append_assoc, List.rdropWhile_concat_pos _ _ _ (by simp), ih]

theorem strip_nil_or_head (s : List Char) :
    strip s = [] ∨ ∃ y ys, strip s = y :: ys ∧ y ≠ ' ' := by
  cases hs : strip s with
  | nil => exact Or.inl rfl
  | cons y ys =>
    right
    refine ⟨y, ys, rfl, ?_⟩
    have hpre : strip s <+: s.dropWhile (· == ' ') := List.rdropWhile_prefix _ _
    rw [hs] at hpre
    obtain ⟨r, hr⟩ := hpre
    have hd : (s.dropWhile (· == ' ')).dropWhile (· == ' ') = s.dropWhile (· == ' ') :=
      List.dropWhile_idempotent _ _
    rw [← hr] at hd
    intro hy
    subst hy
    simp only [List.cons_append, List.dropWhile_cons, beq_self_eq_true, if_true] at hd
    have hlen := congrArg List.length hd
    have hsuff : (List.dropWhile (· == ' ') (ys ++ r)).length ≤ (ys ++ r).length :=
      (List.dropWhile_suffix _).length_le
    simp only [List.length_cons] at hlen
    omega

theorem strip_strip (s : List Char) : strip (strip s) = strip s := by
  rcases strip_nil_or_head s with h0 | ⟨y, ys, h1, hy⟩
  · rw [h0]; rfl
  · unfold strip
    have hd : (strip s).dropWhile (· == ' ') = strip s := by
      rw [h1]
      simp [List.dropWhile_cons, hy]
    unfold strip at hd
    rw [hd, List.rdropWhile_idempotent]

/-- Stripping undoes padding: a stripped text padded with spaces on both sides
strips to itself. -/
theorem strip_pad (s : List Char) (a b : Nat) :
    strip ((List.replicate a ' ' ++ strip s) ++ List.replicate b ' ') = strip s := by
  have hlead : ∀ l : List Char,
      (List.replicate a ' ' ++ l).dropWhile (· == ' ') = l.dropWhile (· == ' ') := by
    intro l
    apply List.dropWhile_append_of_pos
    intro x hx
    simp [List.eq_of_mem_replicate hx]
  rcases strip_nil_or_head s with h0 | ⟨y, ys, h1, hy⟩
  · rw [h0]
    unfold strip
    rw [List.append_nil, List.dropWhile_append_of_pos, List.dropWhile_replicate]
    · simp
    · intro x hx
      simp [List.eq_of_mem_replicate hx]
  · have hd : (strip s ++ List.replicate b ' ').dropWhile (· == ' ')
        = strip s ++ List.replicate b ' ' := by
      rw [h1]
      simp [List.dropWhile_cons, hy]
    rw [show strip ((List.replicate a ' ' ++ strip s) ++ List.replicate b ' ')
        = (((List.replicate a ' ' ++ strip s) ++ List.replicate b ' ').dropWhile
            (· == ' ')).rdropWhile (· == ' ') from rfl,
      List.append_assoc, hlead, hd, rdropWhile_append_replicate]
    exact List.rdropWhile_idempotent _ _

end Strategy

namespace Strategy

theorem strip_padded (self : TextAlignment) (s : List Char) :
    strip (self.padded (strip s)) = strip s := by
  unfold TextAlignment.padded
  split
  · cases self with
    | LeftAlign w =>
      have := strip_pad s 0 (TextAlignment.width (.LeftAlign w) - (strip s).length)
      simpa using this
    | RightAlign w =>
      have := strip_pad s (TextAlignment.width (.RightAlign w) - (strip s).length) 0
      simpa using this
    | CenterAlign w => exact strip_pad s _ _
  · exact strip_strip s

theorem apply_to_apply_to (A B : TextAlignment) (t : List Char) :
    B.apply_to (A.padded (strip t)) = B.apply_to t := by
  rw [apply_to_eq, apply_to_eq, strip_padded]

theorem do_align_eq (doc : WordDocument) (a : Int) :
    doc.do_align a
      = some { line_width_ := doc.line_width_,
               document_text_ :=
                 (if a = 0 then TextAlignment.LeftAlign doc.line_width_
                  else if a = 1 then TextAlignment.RightAlign doc.line_width_
                  else if a = 2 then TextAlignment.CenterAlign doc.line_width_
                  else TextAlignment.LeftAlign doc.line_width_).padded
                    (strip doc.document_text_),
               text_alignment_ :=
                 some (if a = 0 then TextAlignment.LeftAlign doc.line_width_
                  else if a = 1 then TextAlignment.RightAlign doc.line_width_
                  else if a = 2 then TextAlignment.CenterAlign doc.line_width_
                  else TextAlignment.LeftAlign doc.line_width_) } := by
  simp only [WordDocument.do_align, apply_to_eq]

/-- C12: every strategy returns the text without its leading and trailing
spaces, padded with spaces up to the width when it is shorter and not empty:
on the right for `LeftAlign`, on the left for `RightAlign`, and with
`(width - length) / 2` spaces on each side for `CenterAlign`.  Hence for any two
strategies `A` and `B` among the three (built with the same non-negative
width, or indeed with any two non-negative widths) and every text `t`,
`B.apply_to(A.apply_to(t)) == B.apply_to(t)`, and each strategy is idempotent.
`WordDocument::do_align` installs the strategy selected by `align_type`
(`LeftAlign` by default) and replaces `document_text_` by the result of its
`apply_to`, so re-aligning the already aligned document leaves it as if only
the last alignment had been applied. -/
theorem C12_realign (A B : TextAlignment) (t : List Char) :
    (A.apply_to t = some
        (match A with
          | .LeftAlign w =>
            if (strip t).length < w ∧ strip t ≠ [] then
              strip t ++ List.replicate (w - (strip t).length) ' '
            else strip t
          | .RightAlign w =>
            if (strip t).length < w ∧ strip t ≠ [] then
              List.replicate (w - (strip t).length) ' ' ++ strip t
            else strip t
          | .CenterAlign w =>
            if (strip t).length < w ∧ strip t ≠ [] then
              List.replicate ((w - (strip t).length) / 2) ' ' ++ strip t
                ++ List.replicate ((w - (strip t).length) / 2) ' '
            else strip t))
      ∧ (∃ r, A.apply_to t = some r ∧ B.apply_to r = B.apply_to t ∧ A.apply_to r = some r)
      ∧ (∃ r, B.apply_to t = some r)
      ∧ (∀ (doc : WordDocument) (a : Int),
          ∃ r, (if a = 0 then TextAlignment.LeftAlign doc.line_width_
                else if a = 1 then TextAlignment.RightAlign doc.line_width_
                else if a = 2 then TextAlignment.CenterAlign doc.line_width_
                else TextAlignment.LeftAlign doc.line_width_).apply_to doc.document_text_
              = some r
            ∧ doc.do_align a
              = some { line_width_ := doc.line_width_, document_text_ := r,
                       text_alignment_ :=
                         some (if a = 0 then TextAlignment.LeftAlign doc.line_width_
                          else if a = 1 then TextAlignment.RightAlign doc.line_width_
                          else if a = 2 then TextAlignment.CenterAlign doc.line_width_
                          else TextAlignment.LeftAlign doc.line_width_) })
      ∧ ∀ (doc : WordDocument) (a b : Int),
          (∃ d, doc.do_align a = some d ∧ d.do_align b = doc.do_align b)
            ∧ ∃ d, doc.do_align b = some d := by
  refine ⟨?_, ⟨A.padded (strip t), apply_to_eq A t, apply_to_apply_to A B t, ?_⟩,
    ⟨_, apply_to_eq B t⟩, ?_, ?_⟩
  · rw [apply_to_eq]
    cases A <;>
      simp only [TextAlignment.padded, TextAlignment.width, List.isEmpty_iff,
        List.append_assoc]

  · rw [apply_to_apply_to A A t]
    exact apply_to_eq A t
  · intro doc a
    exact ⟨_, apply_to_eq _ _, do_align_eq doc a⟩
  · intro doc a b
    constructor
    · simp only [WordDocument.do_align, apply_to_eq]
      refine ⟨_, rfl, ?_⟩
      simp only [strip_padded]
    · simp only [WordDocument.do_align, apply_to_eq]
      exact ⟨_, rfl⟩

/-- C12 on the run of `main`: the document of width 60 holds the 44 characters
`"The quick brown fox jumped over the lazy dog"`; `do_align(ALIGN_LEFT)` pads
it with 16 spaces on the right, the following `do_align(ALIGN_RIGHT)` gives
the text with 16 spaces on the left, the same as right-aligning the original
text, and the following `do_align(ALIGN_CENTER)` gives it with 8 spaces on each
side. -/
theorem C12_realign_witness :
    (∃ r, (TextAlignment.LeftAlign 60).apply_to
          "The quick brown fox jumped over the lazy dog".toList = some r
        ∧ (TextAlignment.RightAlign 60).apply_to r
          = (TextAlignment.RightAlign 60).apply_to
              "The quick brown fox jumped over the lazy dog".toList
        ∧ (TextAlignment.LeftAlign 60).apply_to r = some r)
      ∧ (((new_WordDocument 60).write
            "The quick brown fox jumped over the lazy dog".toList).do_align 0).map
          WordDocument.read
          = some "The quick brown fox jumped over the lazy dog                ".toList
      ∧ ((((new_WordDocument 60).write
            "The quick brown fox jumped over the lazy dog".toList).do_align 0).bind
              (fun d => d.do_align 1)).map WordDocument.read
          = some "                The quick brown fox jumped over the lazy dog".toList
      ∧ (((((new_WordDocument 60).write
            "The quick brown fox jumped over the lazy dog".toList).do_align 0).bind
              (fun d => d.do_align 1)).bind (fun d => d.do_align 2)).map WordDocument.read
          = some "        The quick brown fox jumped over the lazy dog        ".toList
      ∧ (TextAlignment.RightAlign 60).apply_to
            "The quick brown fox jumped over the lazy dog".toList
          = some "                The quick brown fox jumped over the lazy dog".toList
      ∧ (TextAlignment.CenterAlign 9).apply_to "  ab c ".toList = some "  ab c  ".toList :=
  ⟨(C12_realign (.LeftAlign 60) (.RightAlign 60)
      "The quick brown fox jumped over the lazy dog".toList).2.1,
    by decide, by decide, by decide, by decide, by decide⟩

end Strategy

namespace ObjectPool

theorem World.call_car_list (w : World) (p : Nat) (f : Car → Car) :
    (w.call p f).car_list = w.car_list := by
  unfold World.call
  split <;> rfl

theorem World.call_heap_self (w : World) (p : Nat) (f : Car → Car) :
    (w.call p f).heap[p]? = (w.heap[p]?).map f := by
  unfold World.call
  cases h : w.heap[p]? with
  | none => simp [h]
  | some c =>
    have hp : p < w.heap.length := by
      by_contra hc
      rw [List.getElem?_eq_none (by omega)] at h
      cases h
    simp [List.getElem?_set, hp]

theorem World.call_heap_other (w : World) (p q : Nat) (f : Car → Car) (h : q ≠ p) :
    (w.call p f).heap[q]? = w.heap[q]? := by
  unfold World.call
  cases hc : w.heap[p]? with
  | none => simp
  | some c => simp [List.getElem?_set, Ne.symm h]

theorem World.call_heap_length (w : World) (p : Nat) (f : Car → Car) :
    (w.call p f).heap.length = w.heap.length := by
  unfold World.call
  split <;> simp

end ObjectPool

namespace ObjectPool

theorem return_car_car_list (w : World) (p : Nat) :
    (return_car w (some p)).car_list = w.car_list ++ [p] := by
  simp [return_car, World.call_car_list]

theorem return_car_heap_self (w : World) (p : Nat) (c : Car) (h : w.heap[p]? = some c) :
    (return_car w (some p)).heap[p]?
      = some { in_use_ := true, rentee_ := "NONE", last_rentee_ := c.rentee } := by
  simp [return_car, World.call_heap_self, h, Car.set_in_use, Car.set_last_rentee,
    Car.set_rentee, Car.rentee]

theorem return_car_heap_other (w : World) (p q : Nat) (h : q ≠ p) :
    (return_car w (some p)).heap[q]? = w.heap[q]? := by
  simp [return_car, World.call_heap_other _ _ _ _ h]

theorem get_car_nil (w : World) (h : w.car_list = []) :
    (get_car w).1 = w.heap.length
      ∧ (get_car w).2.car_list = []
      ∧ (get_car w).2.heap
          = w.heap ++ [{ in_use_ := true, rentee_ := "NONE", last_rentee_ := "NONE" }] := by
  obtain ⟨heap, car_list⟩ := w
  simp only at h
  subst h
  simp [get_car, World.new_Car, World.call, default_Car, Car.set_in_use]

theorem get_car_cons (w : World) (front : Nat) (rest : List Nat)
    (h : w.car_list = front :: rest) :
    (get_car w).1 = front
      ∧ (get_car w).2.car_list = rest
      ∧ (get_car w).2.heap.length = w.heap.length
      ∧ (get_car w).2.heap[front]? = (w.heap[front]?).map (fun c => c.set_in_use true)
      ∧ ∀ q, q ≠ front → (get_car w).2.heap[q]? = w.heap[q]? := by
  obtain ⟨heap, car_list⟩ := w
  simp only at h
  subst h
  refine ⟨rfl, ?_, ?_, ?_, ?_⟩
  · simp [get_car, World.call_car_list]
  · simp [get_car, World.call_heap_length]
  · simp [get_car, World.call_heap_self]
  · intro q hq
    simp [get_car, World.call_heap_other _ _ _ _ hq]

/-- While the car `p` waits in the pool with last rentee `r` and rentee
`"NONE"`, client calls that do not hand it out keep it so. -/
theorem waiting_run (p : Nat) (r : String) (ops : List PoolOp) (w : World)
    (hin : p ∈ w.car_list)
    (hcar : ∃ c, w.heap[p]? = some c ∧ c.last_rentee = r ∧ c.rentee = "NONE")
    (hops : ∀ op ∈ ops, op.leaves p) (hnot : p ∉ (poolRun w ops).2) :
    p ∈ (poolRun w ops).1.car_list
      ∧ ∃ c, (poolRun w ops).1.heap[p]? = some c ∧ c.last_rentee = r ∧ c.rentee = "NONE" := by
  induction ops generalizing w with
  | nil => exact ⟨hin, hcar⟩
  | cons op ops ih =>
    have hops' : ∀ o ∈ ops, o.leaves p := fun o ho => hops o (List.mem_cons_of_mem _ ho)
    have hop := hops op (List.mem_cons_self _ _)
    simp only [poolRun, List.mem_append, not_or] at hnot
    apply ih (poolStep w op).1 ?_ ?_ hops' hnot.2
    · cases op with
      | get_car =>
        cases hl : w.car_list with
        | nil => rw [hl] at hin; cases hin
        | cons front rest =>
          obtain ⟨h1, h2, -⟩ := get_car_cons w front rest hl
          have hne : front ≠ p := by
            intro e
            apply hnot.1
            simp [poolStep, h1, e]
          rw [hl] at hin
          simp only [poolStep, h2]
          rcases List.mem_cons.mp hin with e | e
          · exact absurd e.symm hne
          · exact e
      | return_car q =>
        simp only [poolStep, return_car_car_list]
        exact List.mem_append_left _ hin
      | set_rentee q name =>
        simp only [poolStep, World.call_car_list]
        exact hin
    · cases op with
      | get_car =>
        cases hl : w.car_list with
        | nil => rw [hl] at hin; cases hin
        | cons front rest =>
          obtain ⟨h1, -, -, -, h5⟩ := get_car_cons w front rest hl
          have hne : p ≠ front := by
            intro e
            apply hnot.1
            simp [poolStep, h1, e]
          simp only [poolStep, h5 p hne]
          exact hcar
      | return_car q =>
        simp only [PoolOp.leaves] at hop
        simp only [poolStep, return_car_heap_other w q p (Ne.symm hop)]
        exact hcar
      | set_rentee q name =>
        simp only [PoolOp.leaves] at hop
        simp only [poolStep, World.call_heap_other _ _ _ _ (Ne.symm hop)]
        exact hcar

/-- The pool is a queue: the cars in it at the start followed by the cars
returned are the cars taken out of it followed by the cars left in it. -/
theorem queue_run (ops : List PoolOp) (w : World) :
    w.car_list ++ returned ops = reissued w ops ++ (poolRun w ops).1.car_list := by
  induction ops generalizing w with
  | nil => simp [returned, reissued, poolRun]
  | cons op ops ih =>
    cases op with
    | get_car =>
      cases hl : w.car_list with
      | nil =>
        have h := ih (poolStep w .get_car).1
        simp only [poolStep, (get_car_nil w hl).2.1, List.nil_append] at h
        simp only [returned, reissued, poolRun, hl, List.nil_append]
        exact h
      | cons front rest =>
        have h := ih (poolStep w .get_car).1
        simp only [poolStep, (get_car_cons w front rest hl).2.1] at h
        simp only [returned, reissued, poolRun, hl, List.cons_append, List.nil_append, h]
        rfl
    | return_car q =>
      have h := ih (poolStep w (.return_car q)).1
      simp only [poolStep, return_car_car_list, List.append_assoc, List.singleton_append] at h
      simp only [returned, reissued, poolRun, List.nil_append]
      exact h
    | set_rentee q name =>
      have h := ih (poolStep w (.set_rentee q name)).1
      simp only [poolStep, World.call_car_list] at h
      simp only [returned, reissued, poolRun, List.nil_append]
      exact h

end ObjectPool

namespace ObjectPool

/-- C13, the claim as stated fails when the client goes on using the pointer of
a car it has returned.  Bob's car, at address `1`, is returned while its rentee
is `"BOB"`.  If the client then calls `set_rentee("EVE")` through the pointer it
kept, the next `get_car` hands the car out with rentee `"EVE"`, not `"NONE"`;
if it returns the car a second time, the next `get_car` hands it out with last
rentee `"NONE"`, not `"BOB"`. -/
theorem C13_kept_pointer_counterexample :
    (⟨[⟨true, "ALICE", "NONE"⟩, ⟨true, "BOB", "NONE"⟩], []⟩ : World).heap[1]?
        = some ⟨true, "BOB", "NONE"⟩
      ∧ (1 ∉ (poolRun (return_car ⟨[⟨true, "ALICE", "NONE"⟩, ⟨true, "BOB", "NONE"⟩], []⟩
            (some 1)) [.set_rentee 1 "EVE"]).2
        ∧ (get_car (poolRun (return_car ⟨[⟨true, "ALICE", "NONE"⟩, ⟨true, "BOB", "NONE"⟩], []⟩
            (some 1)) [.set_rentee 1 "EVE"]).1).1 = 1
        ∧ ¬ ∃ c', (get_car (poolRun (return_car
              ⟨[⟨true, "ALICE", "NONE"⟩, ⟨true, "BOB", "NONE"⟩], []⟩
              (some 1)) [.set_rentee 1 "EVE"]).1).2.heap[1]? = some c'
            ∧ c'.last_rentee = "BOB" ∧ c'.rentee = "NONE")
      ∧ (1 ∉ (poolRun (return_car ⟨[⟨true, "ALICE", "NONE"⟩, ⟨true, "BOB", "NONE"⟩], []⟩
            (some 1)) [.return_car 1]).2
        ∧ (get_car (poolRun (return_car ⟨[⟨true, "ALICE", "NONE"⟩, ⟨true, "BOB", "NONE"⟩], []⟩
            (some 1)) [.return_car 1]).1).1 = 1
        ∧ ¬ ∃ c', (get_car (poolRun (return_car
              ⟨[⟨true, "ALICE", "NONE"⟩, ⟨true, "BOB", "NONE"⟩], []⟩
              (some 1)) [.return_car 1]).1).2.heap[1]? = some c'
            ∧ c'.last_rentee = "BOB" ∧ c'.rentee = "NONE") := by
  refine ⟨by decide, ⟨by decide, by decide, ?_⟩, ⟨by decide, by decide, ?_⟩⟩
  · rintro ⟨c', h, -, h2⟩
    have e : (get_car (poolRun (return_car
        ⟨[⟨true, "ALICE", "NONE"⟩, ⟨true, "BOB", "NONE"⟩], []⟩
        (some 1)) [.set_rentee 1 "EVE"]).1).2.heap[1]? = some ⟨true, "EVE", "BOB"⟩ := by
      decide
    rw [e] at h
    cases h
    exact absurd h2 (by decide)
  · rintro ⟨c', h, h1, -⟩
    have e : (get_car (poolRun (return_car
        ⟨[⟨true, "ALICE", "NONE"⟩, ⟨true, "BOB", "NONE"⟩], []⟩
        (some 1)) [.return_car 1]).1).2.heap[1]? = some ⟨true, "NONE", "NONE"⟩ := by
      decide
    rw [e] at h
    cases h
    exact absurd h1 (by decide)

/-- C13, amended: (1) if a car is returned through `return_car` while its
rentee is `r`, and the client does not use the returned pointer again (no
`set_rentee` through it and no second `return_car` of it) before the car is
handed out again, then, whatever else the client calls, the next `get_car` that
hands that car out hands it out with `last_rentee()` equal to `r` and
`rentee()` equal to `"NONE"`; (2) `get_car` takes the cars out of the pool in
the order in which they were returned; (3) `get_car` creates a new car, with
rentee and last rentee `"NONE"`, when the pool is empty, and creates none when
it is not. -/
theorem C13_pool_reissue :
    (∀ (w : World) (p : Nat) (c : Car) (ops : List PoolOp),
        w.heap[p]? = some c → (∀ op ∈ ops, op.leaves p)
        → p ∉ (poolRun (return_car w (some p)) ops).2
        → (get_car (poolRun (return_car w (some p)) ops).1).1 = p
        → ∃ c', (get_car (poolRun (return_car w (some p)) ops).1).2.heap[p]? = some c'
            ∧ c'.last_rentee = c.rentee ∧ c'.rentee = "NONE")
      ∧ (∀ (w : World) (ops : List PoolOp),
          w.car_list ++ returned ops = reissued w ops ++ (poolRun w ops).1.car_list)
      ∧ (∀ w : World,
          (w.car_list = [] →
            (get_car w).1 = w.heap.length
              ∧ ∃ c, (get_car w).2.heap = w.heap ++ [c]
                ∧ c.rentee = "NONE" ∧ c.last_rentee = "NONE")
          ∧ (∀ front rest, w.car_list = front :: rest →
              (get_car w).1 = front ∧ (get_car w).2.car_list = rest
                ∧ (get_car w).2.heap.length = w.heap.length)) := by
  refine ⟨?_, fun w ops => queue_run ops w, ?_⟩
  · intro w p c ops hc hops hnot hget
    have hw := waiting_run p c.rentee ops (return_car w (some p))
      (by rw [return_car_car_list]; simp)
      ⟨_, return_car_heap_self w p c hc, rfl, rfl⟩ hops hnot
    obtain ⟨hin, c', hc', hl, hr⟩ := hw
    cases hl' : (poolRun (return_car w (some p)) ops).1.car_list with
    | nil => rw [hl'] at hin; cases hin
    | cons front rest =>
      obtain ⟨h1, -, -, h4, -⟩ := get_car_cons _ front rest hl'
      have hfp : front = p := h1.symm.trans hget
      subst hfp
      refine ⟨c'.set_in_use true, ?_, hl, hr⟩
      rw [h4, hc']
      rfl
  · intro w
    refine ⟨fun h => ?_, fun front rest h => ?_⟩
    · obtain ⟨h1, -, h3⟩ := get_car_nil w h
      exact ⟨h1, _, h3, rfl, rfl⟩
    · obtain ⟨h1, h2, h3, -⟩ := get_car_cons w front rest h
      exact ⟨h1, h2, h3⟩

/-- C13 amended, on the run of `main`: Alice and Bob get the new cars `0` and `1` and
register as rentees, Bob returns his car, and the car handed out to Fred is
Bob's, with last rentee `"BOB"` and rentee `"NONE"`. -/
theorem C13_pool_reissue_witness :
    (poolRun ⟨[], []⟩ [.get_car, .set_rentee 0 "ALICE", .get_car, .set_rentee 1 "BOB"]).1
        = ⟨[⟨true, "ALICE", "NONE"⟩, ⟨true, "BOB", "NONE"⟩], []⟩
      ∧ ∃ c', (get_car (poolRun (return_car
            ⟨[⟨true, "ALICE", "NONE"⟩, ⟨true, "BOB", "NONE"⟩], []⟩ (some 1)) []).1).2.heap[1]?
              = some c'
          ∧ c'.last_rentee = (⟨true, "BOB", "NONE"⟩ : Car).rentee ∧ c'.rentee = "NONE" :=
  ⟨by decide,
    C13_pool_reissue.1 ⟨[⟨true, "ALICE", "NONE"⟩, ⟨true, "BOB", "NONE"⟩], []⟩ 1
      ⟨true, "BOB", "NONE"⟩ [] (by decide) (by simp) (by decide) (by decide)⟩

end ObjectPool

namespace Singleton

theorem write_to_log_read (s : Program) (log : Nat) (given_string acc : List Char)
    (h : read_from_log s log = some acc) :
    read_from_log (write_to_log s log given_string) log = some (acc ++ given_string) := by
  unfold read_from_log at h ⊢
  cases hl : s.heap[log]? with
  | none => simp [hl] at h
  | some l =>
    have hp : log < s.heap.length := by
      by_contra hc
      rw [List.getElem?_eq_none (by omega)] at hl
      cases hl
    simp only [hl, Option.map_some', Option.some.injEq] at h
    simp [write_to_log, hl, List.getElem?_set, hp, h]

theorem write_to_log_instance (s : Program) (log : Nat) (given_string : List Char) :
    (write_to_log s log given_string).log_instance = s.log_instance := by
  unfold write_to_log
  split <;> rfl

theorem consistent_run (ops : List LogOp) (s : Program) (handles : List Nat) (acc : List Char)
    (hc : Consistent s handles acc) (hw : wellFormed handles.length ops) :
    Consistent (logRun s handles ops).1 (logRun s handles ops).2 (acc ++ (written ops).flatten) := by
  induction ops generalizing s handles acc with
  | nil => simpa [logRun, written] using hc
  | cons op ops ih =>
    cases op with
    | get_instance =>
      simp only [wellFormed] at hw
      simp only [logRun, written]
      apply ih
      · rcases hc with ⟨h1, h2, h3⟩ | ⟨log, h1, h2, h3⟩
        · right
          refine ⟨s.heap.length, ?_, ?_, ?_⟩
          · simp [logStep, get_instance, h1]
          · simp [logStep, get_instance, h1, h2]
          · simp [logStep, get_instance, h1, h3, read_from_log, new_Logger]
        · right
          refine ⟨log, ?_, ?_, ?_⟩
          · simp [logStep, get_instance, h1]
          · intro h hh
            simp only [logStep, get_instance, h1, List.mem_append, List.mem_singleton] at hh
            rcases hh with hh | hh
            · exact h2 h hh
            · exact hh
          · simpa [logStep, get_instance, h1] using h3
      · simpa [logStep] using hw
    | write_to_log k str =>
      simp only [wellFormed] at hw
      simp only [logRun, written, List.flatten_cons]
      rw [← List.append_assoc]
      obtain ⟨p, hp⟩ : ∃ p, handles[k]? = some p :=
        ⟨handles[k], List.getElem?_eq_getElem hw.1⟩
      have hmem : p ∈ handles := List.getElem?_mem hp
      apply ih
      · rcases hc with ⟨h1, h2, h3⟩ | ⟨log, h1, h2, h3⟩
        · rw [h2] at hmem
          cases hmem
        · right
          have hpl : p = log := h2 p hmem
          subst hpl
          refine ⟨p, ?_, ?_, ?_⟩
          · simp [logStep, hp, write_to_log_instance, h1]
          · simpa [logStep, hp] using h2
          · simpa [logStep, hp] using write_to_log_read s p str acc h3
      · simpa [logStep, hp] using hw.2

/-- C14: `Logger::get_instance` always yields the same single logger: for every
sequence of client calls that starts at program start and writes the strings
`w1 .. wn` with `write_to_log` through handles obtained from `get_instance`,
all the handles obtained are equal and `read_from_log` through any of them
returns the concatenation `w1 ++ ... ++ wn` in write order. -/
theorem C14_single_logger (ops : List LogOp) (hw : wellFormed 0 ops) :
    (∀ h ∈ (logRun Program.start [] ops).2, ∀ h' ∈ (logRun Program.start [] ops).2, h = h')
      ∧ ∀ h ∈ (logRun Program.start [] ops).2,
          read_from_log (logRun Program.start [] ops).1 h = some (written ops).flatten := by
  have hc := consistent_run ops Program.start [] [] (Or.inl ⟨rfl, rfl, rfl⟩) hw
  rw [List.nil_append] at hc
  rcases hc with ⟨-, h2, -⟩ | ⟨log, -, h2, h3⟩
  · rw [h2]
    simp
  · refine ⟨fun h hh h' hh' => (h2 h hh).trans (h2 h' hh').symm, fun h hh => ?_⟩
    rw [h2 h hh]
    exact h3

/-- C14 on the run of `main`: `"hello"` is written through the first handle,
`", world!"` through the second, and the first handle reads
`"hello, world!"`. -/
theorem C14_single_logger_witness :
    wellFormed 0 [.get_instance, .write_to_log 0 "hello".toList, .get_instance,
        .write_to_log 1 ", world!".toList]
      ∧ (logRun Program.start [] [.get_instance, .write_to_log 0 "hello".toList, .get_instance,
          .write_to_log 1 ", world!".toList]).2 = [0, 0]
      ∧ (written [.get_instance, .write_to_log 0 "hello".toList, .get_instance,
          .write_to_log 1 ", world!".toList]).flatten = "hello, world!".toList
      ∧ read_from_log (logRun Program.start [] [.get_instance, .write_to_log 0 "hello".toList,
          .get_instance, .write_to_log 1 ", world!".toList]).1 0
          = some (written [.get_instance, .write_to_log 0 "hello".toList, .get_instance,
              .write_to_log 1 ", world!".toList]).flatten :=
  ⟨by simp [wellFormed], by decide, by decide,
    (C14_single_logger [.get_instance, .write_to_log 0 "hello".toList, .get_instance,
      .write_to_log 1 ", world!".toList] (by simp [wellFormed])).2 0 (by decide)⟩

end Singleton

namespace RomanInterpreter

/-- C15: for every input string the client entry point
`Interpreter::interpret(const string&)` completes without an out-of-range
error.  `compare(index, ...)` and `substr(index)` throw exactly when `index`
exceeds the cursor length, and for a non-empty input each of the four matcher
invocations returns normally, so every index they use is at most the current
cursor length; for the empty input no matcher is invoked. -/
theorem C15_no_out_of_range (s : List Char) :
    (∃ n, interpret s = .ok n)
      ∧ (s = [] ∨ ∃ s1 s2 s3 s4 : State,
          Interpreter.Thousand.interpret ⟨s, 0⟩ = .ok s1
          ∧ Interpreter.Hundred.interpret s1 = .ok s2
          ∧ Interpreter.Ten.interpret s2 = .ok s3
          ∧ Interpreter.One.interpret s3 = .ok s4
          ∧ runMatchers ⟨s, 0⟩ = .ok s4)
      ∧ (∀ (input : List Char) (pos len : Nat) (str : List Char),
          CppString.compare input pos len str = none ↔ input.length < pos)
      ∧ (∀ (input : List Char) (pos : Nat),
          CppString.substr input pos = none ↔ input.length < pos) := by
  refine ⟨?_, ?_, ?_, ?_⟩
  · obtain ⟨n, hn, -⟩ := interpret_total_le s
    exact ⟨n, hn⟩
  · by_cases hs : s = []
    · exact Or.inl hs
    · right
      obtain ⟨e1, e2, e3, e4⟩ := matchers_ok s hs
      refine ⟨_, _, _, _, e1, e2, e3, e4, ?_⟩
      simp only [runMatchers, e1, e2, e3, e4]
  · intro input pos len str
    unfold CppString.compare
    split <;> simp_all
  · intro input pos
    unfold CppString.substr
    split <;> simp_all

end RomanInterpreter

namespace ObjectPool

/-- C16, the code at the failing input: `set_in_use` stores `true` whatever its
argument is, so `in_use()` is `true` after `set_in_use(false)` and after
`return_car` of a car obtained from `get_car`. -/
theorem C16_set_in_use_ignores_status :
    (∀ (car : Car) (b : Bool), (car.set_in_use b).in_use = true)
      ∧ (default_Car.set_in_use false).in_use = true
      ∧ ((return_car (get_car ⟨[], []⟩).2 (some (get_car ⟨[], []⟩).1)).heap[0]?).map Car.in_use
          = some true :=
  ⟨fun _ _ => rfl, rfl, by decide⟩

end ObjectPool
